import Mathlib

/-!
Verification development for the reverse-process sampling engine of
CleanDiffuser (cleandiffuser/diffusion/diffusionsde.py).

Tensors are embedded as lists of rationals (`Vec`), with all tensor
arithmetic pointwise via `List.zipWith` / `List.map`, mirroring the
broadcasting structure of the source.  Transcendental primitives
(`expm1`, `exp`, `sqrt`, `log`) are abstracted into a `MathPrims`
record, since the claims under study are algebraic or structural and
hold for every interpretation of these primitives.  Random draws
(`torch.randn_like`) are explicit inputs: the initial draw and one
draw per loop iteration.
-/

namespace CDiff

/-- A tensor flattened to its coordinates, as exact rationals. -/
abbrev Vec := List ℚ

/-- Pointwise addition of two tensors. -/
def vadd (a b : Vec) : Vec := List.zipWith (fun x y => x + y) a b

/-- Pointwise subtraction of two tensors. -/
def vsub (a b : Vec) : Vec := List.zipWith (fun x y => x - y) a b

/-- Pointwise multiplication of two tensors. -/
def vmul (a b : Vec) : Vec := List.zipWith (fun x y => x * y) a b

/-- Scalar times tensor. -/
def vsmul (c : ℚ) (v : Vec) : Vec := v.map (fun x => c * x)

/-- Tensor divided by scalar. -/
def vdivs (v : Vec) (c : ℚ) : Vec := v.map (fun x => x / c)

/-- Pointwise maximum. -/
def vmax (a b : Vec) : Vec := List.zipWith max a b

/-- Pointwise minimum. -/
def vmin (a b : Vec) : Vec := List.zipWith min a b

@[simp] lemma vadd_length (a b : Vec) : (vadd a b).length = min a.length b.length := by
  simp [vadd]

@[simp] lemma vsub_length (a b : Vec) : (vsub a b).length = min a.length b.length := by
  simp [vsub]

@[simp] lemma vmul_length (a b : Vec) : (vmul a b).length = min a.length b.length := by
  simp [vmul]

@[simp] lemma vsmul_length (c : ℚ) (v : Vec) : (vsmul c v).length = v.length := by
  simp [vsmul]

@[simp] lemma vdivs_length (v : Vec) (c : ℚ) : (vdivs v c).length = v.length := by
  simp [vdivs]

@[simp] lemma vmax_length (a b : Vec) : (vmax a b).length = min a.length b.length := by
  simp [vmax]

@[simp] lemma vmin_length (a b : Vec) : (vmin a b).length = min a.length b.length := by
  simp [vmin]

lemma getD_zipWith (f : ℚ → ℚ → ℚ) :
    ∀ (a b : List ℚ) (i : ℕ), i < a.length → i < b.length →
      (List.zipWith f a b).getD i 0 = f (a.getD i 0) (b.getD i 0) := by
  intro a
  induction a with
  | nil => intro b i h; simp at h
  | cons x xs ih =>
    intro b i hb hc
    cases b with
    | nil => simp at hc
    | cons y ys =>
      cases i with
      | zero => simp
      | succ j =>
        simp only [List.zipWith_cons_cons, List.getD_cons_succ]
        exact ih ys j (by simpa using hb) (by simpa using hc)

lemma getD_map (f : ℚ → ℚ) :
    ∀ (a : List ℚ) (i : ℕ), i < a.length → (a.map f).getD i 0 = f (a.getD i 0) := by
  intro a
  induction a with
  | nil => intro i h; simp at h
  | cons x xs ih =>
    intro i h
    cases i with
    | zero => simp
    | succ j => simpa using ih j (by simpa using h)

lemma vec_ext : ∀ (a b : Vec), a.length = b.length →
    (∀ i, i < a.length → a.getD i 0 = b.getD i 0) → a = b := by
  intro a
  induction a with
  | nil =>
    intro b hl _
    cases b with
    | nil => rfl
    | cons y ys => simp at hl
  | cons x xs ih =>
    intro b hl h
    cases b with
    | nil => simp at hl
    | cons y ys =>
      have h0 := h 0 (by simp)
      simp only [List.getD_cons_zero] at h0
      have hrest : xs = ys := by
        refine ih ys (by simpa using hl) ?_
        intro i hi
        have := h (i + 1) (by simpa using Nat.succ_lt_succ hi)
        simpa using this
      rw [h0, hrest]

lemma vadd_getD (a b : Vec) (i : ℕ) (ha : i < a.length) (hb : i < b.length) :
    (vadd a b).getD i 0 = a.getD i 0 + b.getD i 0 := getD_zipWith _ a b i ha hb

lemma vsub_getD (a b : Vec) (i : ℕ) (ha : i < a.length) (hb : i < b.length) :
    (vsub a b).getD i 0 = a.getD i 0 - b.getD i 0 := getD_zipWith _ a b i ha hb

lemma vmul_getD (a b : Vec) (i : ℕ) (ha : i < a.length) (hb : i < b.length) :
    (vmul a b).getD i 0 = a.getD i 0 * b.getD i 0 := getD_zipWith _ a b i ha hb

lemma vsmul_getD (c : ℚ) (v : Vec) (i : ℕ) (h : i < v.length) :
    (vsmul c v).getD i 0 = c * v.getD i 0 := getD_map _ v i h

lemma vdivs_getD (v : Vec) (c : ℚ) (i : ℕ) (h : i < v.length) :
    (vdivs v c).getD i 0 = v.getD i 0 / c := getD_map _ v i h

/-- Abstract transcendental primitives used by the solver formulas
(`torch.expm1`, `Tensor.exp`, `Tensor.sqrt`, `torch.log`).  The claims
under study hold for every interpretation. -/
structure MathPrims where
  expm1 : ℚ → ℚ
  exp : ℚ → ℚ
  sqrt : ℚ → ℚ
  log : ℚ → ℚ

/-- The diffusion model dictionary `self.model` / `self.model_ema`:
a black-box noise/data predictor (`model["diffusion"]`) and a condition
encoder (`model["condition"]`).  `γ` is the abstract type of condition
values (raw conditions, CFG masks and encoded conditions alike). -/
structure NN (γ : Type) where
  diffusion : Vec → ℚ → Option γ → Vec
  condition : γ → Option γ → γ

/-- The classifier-guidance oracle (`BaseClassifier`): `gradients`
returns a log-probability and a gradient tensor, `logp` a
log-probability. -/
structure Classifier (γ : Type) where
  gradients : Vec → ℚ → Option γ → ℚ × Vec
  logp : Vec → ℚ → Option γ → ℚ

/-- Shared state of `BaseDiffusionSDE`: the fix mask, the optional
classifier, the prediction mode, the clipping bounds, and the two
model copies (primary and EMA). -/
structure SDEBase (γ : Type) where
  prims : MathPrims
  fix_mask : Vec
  classifier : Option (Classifier γ)
  predict_noise : Bool
  x_max : Option Vec
  x_min : Option Vec
  nnModel : NN γ
  nnModelEma : NN γ

/-- `BaseDiffusionSDE.clip_pred`: bounds are configured. -/
def SDEBase.clip_pred {γ : Type} (b : SDEBase γ) : Bool :=
  b.x_max.isSome || b.x_min.isSome

/-- `epstheta_to_xtheta` from the source:
x_theta = (x - sigma * eps_theta) / alpha, per coordinate. -/
def epstheta_to_xtheta (x alpha sigma eps_theta : ℚ) : ℚ :=
  (x - sigma * eps_theta) / alpha

/-- `xtheta_to_epstheta` from the source:
eps_theta = (x - alpha * x_theta) / sigma, per coordinate. -/
def xtheta_to_epstheta (x alpha sigma x_theta : ℚ) : ℚ :=
  (x - alpha * x_theta) / sigma

/-- Tensor form of `epstheta_to_xtheta`. -/
def vepstheta_to_xtheta (xt : Vec) (alpha sigma : ℚ) (eps_theta : Vec) : Vec :=
  List.zipWith (fun x e => epstheta_to_xtheta x alpha sigma e) xt eps_theta

/-- Tensor form of `xtheta_to_epstheta`. -/
def vxtheta_to_epstheta (xt : Vec) (alpha sigma : ℚ) (x_theta : Vec) : Vec :=
  List.zipWith (fun x v => xtheta_to_epstheta x alpha sigma v) xt x_theta

/-- `torch.Tensor.clip` with optional elementwise bounds:
result = min(max(x, lo), hi). -/
def vclipo (lo hi : Option Vec) (v : Vec) : Vec :=
  let v1 := match lo with
    | none => v
    | some l => vmax v l
  match hi with
  | none => v1
  | some h => vmin v1 h

/-- `BaseDiffusionSDE.clip_prediction`: clip the per-step prediction
into the configured data range, expressed in the predicted quantity. -/
def SDEBase.clip_prediction {γ : Type} (b : SDEBase γ) (pred xt : Vec)
    (alpha sigma : ℚ) : Vec :=
  if b.predict_noise then
    if b.clip_pred then
      let upper_bound := b.x_min.map
        (fun xm => List.zipWith (fun x m => (x - alpha * m) / sigma) xt xm)
      let lower_bound := b.x_max.map
        (fun xm => List.zipWith (fun x m => (x - alpha * m) / sigma) xt xm)
      vclipo lower_bound upper_bound pred
    else pred
  else
    if b.clip_pred then vclipo b.x_min b.x_max pred else pred

/-- `BaseDiffusionSDE.classifier_free_guidance`.  The `0 < w < 1`
branch of the source evaluates the predictor on a doubled batch with
the condition of the second half suppressed; observably this is the
conditional and the unconditional prediction, blended as
w * pred + (1 - w) * pred_uncond.  (The gradient-tracking flag and the
batched-call optimization have no numeric content and are dropped.) -/
def SDEBase.classifier_free_guidance {γ : Type} (_b : SDEBase γ) (model : NN γ)
    (xt : Vec) (t : ℚ) (condition : Option γ) (w : ℚ) : Vec :=
  if w = 1 then model.diffusion xt t condition
  else if w = 0 then model.diffusion xt t none
  else vadd (vsmul w (model.diffusion xt t condition))
            (vsmul (1 - w) (model.diffusion xt t none))

/-- `BaseDiffusionSDE.classifier_guidance` with `pred` supplied (as in
`guided_sampling`, which always passes the CFG prediction):
passthrough when no classifier or w = 0, otherwise a gradient
correction in the predicted quantity plus the classifier log-prob. -/
def SDEBase.classifier_guidance {γ : Type} (b : SDEBase γ) (xt : Vec)
    (t alpha sigma : ℚ) (condition : Option γ) (w : ℚ) (pred : Vec) :
    Vec × Option ℚ :=
  match b.classifier with
  | none => (pred, none)
  | some cls =>
    if w = 0 then (pred, none)
    else
      let lp_grad := cls.gradients xt t condition
      if b.predict_noise then
        (vsub pred (vsmul (w * sigma) lp_grad.2), some lp_grad.1)
      else
        (vadd pred (vsmul (w * (sigma ^ 2 / alpha)) lp_grad.2), some lp_grad.1)

/-- `BaseDiffusionSDE.guided_sampling`: CFG blend followed by the
classifier-gradient correction. -/
def SDEBase.guided_sampling {γ : Type} (b : SDEBase γ) (model : NN γ)
    (xt : Vec) (t alpha sigma : ℚ) (condition_cfg : Option γ) (w_cfg : ℚ)
    (condition_cg : Option γ) (w_cg : ℚ) : Vec × Option ℚ :=
  let pred := b.classifier_free_guidance model xt t condition_cfg w_cfg
  b.classifier_guidance xt t alpha sigma condition_cg w_cg pred

/-- The eight supported one-step update rules. -/
inductive Solver
  | ddpm
  | ddim
  | ode_dpmsolver_1
  | ode_dpmsolver_pp_1
  | ode_dpmsolver_pp_2M
  | sde_dpmsolver_1
  | sde_dpmsolver_pp_1
  | sde_dpmsolver_pp_2M
deriving DecidableEq

/-- `SUPPORTED_SOLVERS` from the source. -/
def SUPPORTED_SOLVERS : List String :=
  ["ddpm", "ddim",
   "ode_dpmsolver_1", "ode_dpmsolver++_1", "ode_dpmsolver++_2M",
   "sde_dpmsolver_1", "sde_dpmsolver++_1", "sde_dpmsolver++_2M"]

/-- Parse a solver name; `none` models the names rejected by the
assertion at the head of `sample`. -/
def Solver.ofString (s : String) : Option Solver :=
  if s = "ddpm" then some .ddpm
  else if s = "ddim" then some .ddim
  else if s = "ode_dpmsolver_1" then some .ode_dpmsolver_1
  else if s = "ode_dpmsolver++_1" then some .ode_dpmsolver_pp_1
  else if s = "ode_dpmsolver++_2M" then some .ode_dpmsolver_pp_2M
  else if s = "sde_dpmsolver_1" then some .sde_dpmsolver_1
  else if s = "sde_dpmsolver++_1" then some .sde_dpmsolver_pp_1
  else if s = "sde_dpmsolver++_2M" then some .sde_dpmsolver_pp_2M
  else none

/-- `buffer[-1]`. -/
def bufLast (b : List Vec) : Vec := b.getLastD []

/-- `buffer[-2]` (total model; underflow never happens in a run). -/
def bufLast2 (b : List Vec) : Vec := b.dropLast.getLastD []

/-- The one-step update of the denoising loop (the `if solver == ...`
cascade), for loop index `i`, current state `xt`, converted
predictions `eps_theta` / `x_theta`, multistep memory `buffer`, and
the fresh standard-normal draw `z` of this iteration.  `n` is
`sample_steps`.  Returns the next state and the next buffer. -/
def solverUpdate (P : MathPrims) (solver : Solver) (n : ℕ)
    (alphas sigmas hs stds : ℕ → ℚ) (i : ℕ)
    (xt eps_theta x_theta : Vec) (buffer : List Vec) (z : Vec) :
    Vec × List Vec :=
  match solver with
  | .ddpm =>
    let x1 := vadd
      (vsmul (alphas (i - 1) / alphas i) (vsub xt (vsmul (sigmas i) eps_theta)))
      (vsmul (P.sqrt (sigmas (i - 1) ^ 2 - stds i ^ 2 + 1 / 100000000)) eps_theta)
    (if 1 < i then vadd x1 (vsmul (stds i) z) else x1, buffer)
  | .ddim =>
    (vadd (vsmul (alphas (i - 1)) (vdivs (vsub xt (vsmul (sigmas i) eps_theta)) (alphas i)))
          (vsmul (sigmas (i - 1)) eps_theta), buffer)
  | .ode_dpmsolver_1 =>
    (vsub (vsmul (alphas (i - 1) / alphas i) xt)
          (vsmul (sigmas (i - 1) * P.expm1 (hs i)) eps_theta), buffer)
  | .ode_dpmsolver_pp_1 =>
    (vsub (vsmul (sigmas (i - 1) / sigmas i) xt)
          (vsmul (alphas (i - 1) * P.expm1 (-hs i)) x_theta), buffer)
  | .ode_dpmsolver_pp_2M =>
    let buf := buffer ++ [x_theta]
    if i < n then
      let r := hs (i + 1) / hs i
      let D := vsub (vsmul (1 + 1 / 2 / r) (bufLast buf)) (vsmul (1 / 2 / r) (bufLast2 buf))
      (vsub (vsmul (sigmas (i - 1) / sigmas i) xt)
            (vsmul (alphas (i - 1) * P.expm1 (-hs i)) D), buf)
    else
      (vsub (vsmul (sigmas (i - 1) / sigmas i) xt)
            (vsmul (alphas (i - 1) * P.expm1 (-hs i)) x_theta), buf)
  | .sde_dpmsolver_1 =>
    (vadd (vsub (vsmul (alphas (i - 1) / alphas i) xt)
                (vsmul (2 * sigmas (i - 1) * P.expm1 (hs i)) eps_theta))
          (vsmul (sigmas (i - 1) * P.sqrt (P.expm1 (2 * hs i))) z), buffer)
  | .sde_dpmsolver_pp_1 =>
    (vadd (vsub (vsmul (sigmas (i - 1) / sigmas i * P.exp (-hs i)) xt)
                (vsmul (alphas (i - 1) * P.expm1 (-(2 * hs i))) x_theta))
          (vsmul (sigmas (i - 1) * P.sqrt (-P.expm1 (-(2 * hs i)))) z), buffer)
  | .sde_dpmsolver_pp_2M =>
    let buf := buffer ++ [x_theta]
    if i < n then
      let r := hs (i + 1) / hs i
      let D := vsub (vsmul (1 + 1 / 2 / r) (bufLast buf)) (vsmul (1 / 2 / r) (bufLast2 buf))
      (vadd (vsub (vsmul (sigmas (i - 1) / sigmas i * P.exp (-hs i)) xt)
                  (vsmul (alphas (i - 1) * P.expm1 (-(2 * hs i))) D))
            (vsmul (sigmas (i - 1) * P.sqrt (-P.expm1 (-(2 * hs i)))) z), buf)
    else
      (vadd (vsub (vsmul (sigmas (i - 1) / sigmas i * P.exp (-hs i)) xt)
                  (vsmul (alphas (i - 1) * P.expm1 (-(2 * hs i))) x_theta))
            (vsmul (sigmas (i - 1) * P.sqrt (-P.expm1 (-(2 * hs i)))) z), buf)

/-- The fix-mask reapplication `xt * (1 - fix_mask) + prior * fix_mask`. -/
def applyMask (mask prior x : Vec) : Vec :=
  vadd (vmul x (mask.map (fun m => 1 - m))) (vmul prior mask)

lemma applyMask_length (mask prior x : Vec) :
    (applyMask mask prior x).length =
      min (min x.length mask.length) (min prior.length mask.length) := by
  simp [applyMask]

lemma applyMask_getD (mask prior x : Vec) (c : ℕ)
    (hx : c < x.length) (hm : c < mask.length) (hp : c < prior.length) :
    (applyMask mask prior x).getD c 0 =
      x.getD c 0 * (1 - mask.getD c 0) + prior.getD c 0 * mask.getD c 0 := by
  unfold applyMask
  rw [vadd_getD _ _ _ (by simp [hx, hm]) (by simp [hp, hm])]
  rw [vmul_getD _ _ _ hx (by simpa using hm)]
  rw [vmul_getD _ _ _ hp hm]
  rw [getD_map _ _ _ hm]

/-- At any fixed coordinate the reapplied state equals the prior. -/
lemma applyMask_fixed (mask prior x : Vec) (c : ℕ)
    (hc : c < (applyMask mask prior x).length)
    (hmask : mask.getD c 0 = 1) :
    (applyMask mask prior x).getD c 0 = prior.getD c 0 := by
  rw [applyMask_length] at hc
  have hx : c < x.length := lt_of_lt_of_le hc (by omega)
  have hm : c < mask.length := lt_of_lt_of_le hc (by omega)
  have hp : c < prior.length := lt_of_lt_of_le hc (by omega)
  rw [applyMask_getD mask prior x c hx hm hp, hmask]
  ring

/-- `hs`: `hs[0] = 0` (from `torch.zeros_like`, with the source noting
it is not correctly calculated but never used), and
`hs[i] = logSNRs[i-1] - logSNRs[i]` for `i >= 1`. -/
def mkHs (logSNRs : ℕ → ℚ) : ℕ → ℚ :=
  fun i => if i = 0 then 0 else logSNRs (i - 1) - logSNRs i

/-- `stds`: `stds[0] = 0` (same remark), and
`stds[i] = sigmas[i-1]/sigmas[i] * sqrt(1 - (alphas[i]/alphas[i-1])^2)`
for `i >= 1`. -/
def mkStds (P : MathPrims) (alphas sigmas : ℕ → ℚ) : ℕ → ℚ :=
  fun i => if i = 0 then 0
           else sigmas (i - 1) / sigmas i * P.sqrt (1 - (alphas i / alphas (i - 1)) ^ 2)

/-- The mutable state threaded through the denoising loop: the sample,
the multistep memory and the history buffer (`log["sample_history"]`,
preallocated by `np.empty`, so slots hold arbitrary garbage until
written). -/
structure LoopState where
  xt : Vec
  buffer : List Vec
  hist : ℕ → Vec

/-- Everything a loop iteration reads besides the loop state. -/
structure StepCtx (γ : Type) where
  base : SDEBase γ
  model : NN γ
  cond_cfg : Option γ
  cond_cg : Option γ
  w_cfg : ℚ
  w_cg : ℚ
  solver : Solver
  n : ℕ
  tOf : ℕ → ℚ
  alphas : ℕ → ℚ
  sigmas : ℕ → ℚ
  hs : ℕ → ℚ
  stds : ℕ → ℚ
  prior : Vec
  preserve_history : Bool
  noises : ℕ → Vec

/-- One iteration of the denoising loop at loop index `i` (the `k`-th
iteration overall, fixing which random draw is consumed): guidance,
clipping, representation conversion, solver update, fix-mask
reapplication, optional history write at slot `n - i + 1`. -/
def stepIter {γ : Type} (c : StepCtx γ) (k i : ℕ) (st : LoopState) : LoopState :=
  let pr := c.base.guided_sampling c.model st.xt (c.tOf i) (c.alphas i) (c.sigmas i)
              c.cond_cfg c.w_cfg c.cond_cg c.w_cg
  let pred := c.base.clip_prediction pr.1 st.xt (c.alphas i) (c.sigmas i)
  let eps_theta := if c.base.predict_noise then pred
                   else vxtheta_to_epstheta st.xt (c.alphas i) (c.sigmas i) pred
  let x_theta := if c.base.predict_noise then
                   vepstheta_to_xtheta st.xt (c.alphas i) (c.sigmas i) pred
                 else pred
  let upd := solverUpdate c.base.prims c.solver c.n c.alphas c.sigmas c.hs c.stds i
               st.xt eps_theta x_theta st.buffer (c.noises k)
  let xt2 := applyMask c.base.fix_mask c.prior upd.1
  let hist2 := if c.preserve_history then Function.update st.hist (c.n - i + 1) xt2
               else st.hist
  ⟨xt2, upd.2, hist2⟩

/-- The denoising loop: fold `stepIter` over the loop indices,
counting iterations in `k`. -/
def denoiseLoop {γ : Type} (c : StepCtx γ) : List ℕ → ℕ → LoopState → LoopState
  | [], _, st => st
  | i :: rest, k, st => denoiseLoop c rest (k + 1) (stepIter c k i st)

/-- `reversed([1] * diffusion_x_sampling_steps + list(range(1, sample_steps + 1)))`:
the indices `n, n-1, ..., 1` followed by `dx` extra repetitions of `1`. -/
def loopSteps (dx n : ℕ) : List ℕ :=
  (List.range' 1 n).reverse ++ List.replicate dx 1

/-- The log record returned by `sample`. -/
structure SampleLog where
  sample_history : Option (List Vec)
  log_p : Option ℚ
deriving DecidableEq

/-- Arguments of `DiscreteDiffusionSDE.sample`; `schedGen` is the
resolved sampling-step schedule (either a registered name or a
caller-supplied callable, receiving the effective `diffusion_steps`
and `sample_steps` and returning the index array); `init_noise`,
`noises` and `hist_init` make the random draws and the `np.empty`
garbage explicit. -/
structure DiscreteArgs (γ : Type) where
  prior : Vec
  sample_steps : ℕ
  schedGen : ℕ → ℕ → (ℕ → ℕ)
  use_ema : Bool
  temperature : ℚ
  condition_cfg : Option γ
  mask_cfg : Option γ
  w_cfg : ℚ
  condition_cg : Option γ
  w_cg : ℚ
  diffusion_x_sampling_steps : ℕ
  warm_start_reference : Option Vec
  warm_start_forward_level : ℚ
  preserve_history : Bool
  init_noise : Vec
  noises : ℕ → Vec
  hist_init : ℕ → Vec

/-- `DiscreteDiffusionSDE`: the discretization and noise schedule are
precomputed arrays (built in `__init__` from the registered schedules
of `cleandiffuser.utils`, which are outside the sources under study;
they enter the embedding as abstract arrays). -/
structure DiscreteSDE (γ : Type) extends SDEBase γ where
  diffusion_steps : ℕ
  alphaArr : ℕ → ℚ
  sigmaArr : ℕ → ℚ

/-- `self.logSNR = torch.log(self.alpha / self.sigma)`. -/
def DiscreteSDE.logSNRArr {γ : Type} (d : DiscreteSDE γ) : ℕ → ℚ :=
  fun i => d.prims.log (d.alphaArr i / d.sigmaArr i)

/-- The initialization branch of `DiscreteDiffusionSDE.sample`:
returns the effective `diffusion_steps` and the raw initial state
(before the fix-mask is applied).  Warm-starting is active when a
reference tensor is given and the forward level lies strictly in
(0, 1); otherwise the initial state is the pure-noise draw scaled by
the temperature. -/
def DiscreteSDE.warmInit {γ : Type} (d : DiscreteSDE γ) (a : DiscreteArgs γ) : ℕ × Vec :=
  match a.warm_start_reference with
  | some ref =>
    if 0 < a.warm_start_forward_level ∧ a.warm_start_forward_level < 1 then
      let ds := (a.warm_start_forward_level * (d.diffusion_steps : ℚ)).floor.toNat
      (ds, vadd (vsmul (d.alphaArr ds) ref) (vsmul (d.sigmaArr ds) a.init_noise))
    else (d.diffusion_steps, vsmul a.temperature a.init_noise)
  | none => (d.diffusion_steps, vsmul a.temperature a.init_noise)

/-- The schedule index array of a discrete sampling call. -/
def DiscreteSDE.schedOf {γ : Type} (d : DiscreteSDE γ) (a : DiscreteArgs γ) : ℕ → ℕ :=
  a.schedGen (d.warmInit a).1 a.sample_steps

/-- `hs` of a discrete sampling call. -/
def DiscreteSDE.hsOf {γ : Type} (d : DiscreteSDE γ) (a : DiscreteArgs γ) : ℕ → ℚ :=
  mkHs (fun i => d.logSNRArr (d.schedOf a i))

/-- `stds` of a discrete sampling call. -/
def DiscreteSDE.stdsOf {γ : Type} (d : DiscreteSDE γ) (a : DiscreteArgs γ) : ℕ → ℚ :=
  mkStds d.prims (fun i => d.alphaArr (d.schedOf a i)) (fun i => d.sigmaArr (d.schedOf a i))

/-- The initial state `xt` of a discrete sampling call, after the
fix-mask is applied (lines 481-489 of the source). -/
def DiscreteSDE.xt0Of {γ : Type} (d : DiscreteSDE γ) (a : DiscreteArgs γ) : Vec :=
  applyMask d.fix_mask a.prior (d.warmInit a).2

/-- The history buffer after the initial write of slot 0. -/
def DiscreteSDE.hist0Of {γ : Type} (d : DiscreteSDE γ) (a : DiscreteArgs γ) : ℕ → Vec :=
  if a.preserve_history then Function.update a.hist_init 0 (d.xt0Of a) else a.hist_init

/-- `model = self.model if not use_ema else self.model_ema`. -/
def DiscreteSDE.modelOf {γ : Type} (d : DiscreteSDE γ) (a : DiscreteArgs γ) : NN γ :=
  if a.use_ema then d.nnModelEma else d.nnModel

/-- The loop context of a discrete sampling call. -/
def DiscreteSDE.ctxOf {γ : Type} (d : DiscreteSDE γ) (solver : Solver)
    (a : DiscreteArgs γ) (hs stds : ℕ → ℚ) : StepCtx γ :=
  ⟨d.toSDEBase, d.modelOf a,
   a.condition_cfg.map (fun v => (d.modelOf a).condition v a.mask_cfg),
   a.condition_cg, a.w_cfg, a.w_cg,
   solver, a.sample_steps, fun i => (d.schedOf a i : ℚ),
   fun i => d.alphaArr (d.schedOf a i), fun i => d.sigmaArr (d.schedOf a i),
   hs, stds, a.prior, a.preserve_history, a.noises⟩

/-- The loop state entering the denoising loop. -/
def DiscreteSDE.initStateOf {γ : Type} (d : DiscreteSDE γ) (a : DiscreteArgs γ) :
    LoopState :=
  ⟨d.xt0Of a, [], d.hist0Of a⟩

/-- The loop state after the whole denoising loop. -/
def DiscreteSDE.finalOf {γ : Type} (d : DiscreteSDE γ) (solver : Solver)
    (a : DiscreteArgs γ) (hs stds : ℕ → ℚ) : LoopState :=
  denoiseLoop (d.ctxOf solver a hs stds)
    (loopSteps a.diffusion_x_sampling_steps a.sample_steps) 0 (d.initStateOf a)

/-- The loop state of a discrete sampling call after its first `k`
iterations (`k = 0` is the state entering the loop). -/
def DiscreteSDE.stateAfter {γ : Type} (d : DiscreteSDE γ) (solver : Solver)
    (a : DiscreteArgs γ) (k : ℕ) : LoopState :=
  denoiseLoop (d.ctxOf solver a (d.hsOf a) (d.stdsOf a))
    ((loopSteps a.diffusion_x_sampling_steps a.sample_steps).take k) 0 (d.initStateOf a)

/-- The body of `DiscreteDiffusionSDE.sample` with the derived `hs`
and `stds` arrays passed explicitly (`sample` instantiates them with
`hsOf` / `stdsOf`; keeping them as parameters lets the deadness of
index 0 be stated).  Mirrors the source: initialization, history slot
0, condition encoding, schedule construction, denoising loop,
post-processing (classifier log-prob, then the final data-range
clip). -/
def DiscreteSDE.sampleWithArrays {γ : Type} (d : DiscreteSDE γ) (solver : Solver)
    (a : DiscreteArgs γ) (hs stds : ℕ → ℚ) : Vec × SampleLog :=
  let final := d.finalOf solver a hs stds
  let log_p : Option ℚ := match d.classifier with
    | some cls => some (cls.logp final.xt 0 a.condition_cg)
    | none => none
  let xtOut := if d.clip_pred then vclipo d.x_min d.x_max final.xt else final.xt
  (xtOut,
   ⟨if a.preserve_history then some ((List.range (a.sample_steps + 1)).map final.hist)
     else none,
    log_p⟩)

/-- `DiscreteDiffusionSDE.sample` (after the solver-name assertion). -/
def DiscreteSDE.sample {γ : Type} (d : DiscreteSDE γ) (solver : Solver)
    (a : DiscreteArgs γ) : Vec × SampleLog :=
  d.sampleWithArrays solver a (d.hsOf a) (d.stdsOf a)

/-- `DiscreteDiffusionSDE.sample` including the solver-name assertion
(`assert solver in SUPPORTED_SOLVERS`); `none` models the
`AssertionError`. -/
def DiscreteSDE.sampleChecked {γ : Type} (d : DiscreteSDE γ) (solverName : String)
    (a : DiscreteArgs γ) : Option (Vec × SampleLog) :=
  match Solver.ofString solverName with
  | none => none
  | some sv => some (d.sample sv a)

/-- Arguments of `ContinuousDiffusionSDE.sample`; `schedGen` receives
the effective continuous time range and `sample_steps` and returns the
array of time values. -/
structure ContArgs (γ : Type) where
  prior : Vec
  sample_steps : ℕ
  schedGen : ℚ × ℚ → ℕ → (ℕ → ℚ)
  use_ema : Bool
  temperature : ℚ
  condition_cfg : Option γ
  mask_cfg : Option γ
  w_cfg : ℚ
  condition_cg : Option γ
  w_cg : ℚ
  diffusion_x_sampling_steps : ℕ
  warm_start_reference : Option Vec
  warm_start_forward_level : ℚ
  preserve_history : Bool
  init_noise : Vec
  noises : ℕ → Vec
  hist_init : ℕ → Vec

/-- `ContinuousDiffusionSDE`: the continuous time range
`t_diffusion = [t_eps, t_max]` and the forward noise-schedule function
(from `cleandiffuser.utils`, outside the sources under study; an
abstract map from a time value to `(alpha, sigma)`). -/
structure ContinuousSDE (γ : Type) extends SDEBase γ where
  t_eps : ℚ
  t_max : ℚ
  nsForward : ℚ → ℚ × ℚ

/-- The initialization branch of `ContinuousDiffusionSDE.sample`:
returns the effective time range and the raw initial state.  In the
warm branch the forward level is first mapped affinely into the time
range, the reference is forward-diffused with the schedule evaluated
at `t_max * level`, and the time range is shrunk to `[t_eps, level]`. -/
def ContinuousSDE.warmInit {γ : Type} (c : ContinuousSDE γ) (a : ContArgs γ) :
    (ℚ × ℚ) × Vec :=
  match a.warm_start_reference with
  | some ref =>
    if 0 < a.warm_start_forward_level ∧ a.warm_start_forward_level < 1 then
      let lvl := c.t_eps + a.warm_start_forward_level * (c.t_max - c.t_eps)
      let fwd := c.nsForward (c.t_max * lvl)
      ((c.t_eps, lvl), vadd (vsmul fwd.1 ref) (vsmul fwd.2 a.init_noise))
    else ((c.t_eps, c.t_max), vsmul a.temperature a.init_noise)
  | none => ((c.t_eps, c.t_max), vsmul a.temperature a.init_noise)

/-- The schedule time-value array of a continuous sampling call. -/
def ContinuousSDE.schedOf {γ : Type} (c : ContinuousSDE γ) (a : ContArgs γ) : ℕ → ℚ :=
  a.schedGen (c.warmInit a).1 a.sample_steps

/-- `alphas` of a continuous sampling call. -/
def ContinuousSDE.alphasOf {γ : Type} (c : ContinuousSDE γ) (a : ContArgs γ) : ℕ → ℚ :=
  fun i => (c.nsForward (c.schedOf a i)).1

/-- `sigmas` of a continuous sampling call. -/
def ContinuousSDE.sigmasOf {γ : Type} (c : ContinuousSDE γ) (a : ContArgs γ) : ℕ → ℚ :=
  fun i => (c.nsForward (c.schedOf a i)).2

/-- `hs` of a continuous sampling call
(`logSNRs = torch.log(alphas / sigmas)`). -/
def ContinuousSDE.hsOf {γ : Type} (c : ContinuousSDE γ) (a : ContArgs γ) : ℕ → ℚ :=
  mkHs (fun i => c.prims.log (c.alphasOf a i / c.sigmasOf a i))

/-- `stds` of a continuous sampling call. -/
def ContinuousSDE.stdsOf {γ : Type} (c : ContinuousSDE γ) (a : ContArgs γ) : ℕ → ℚ :=
  mkStds c.prims (c.alphasOf a) (c.sigmasOf a)

/-- The initial state `xt` of a continuous sampling call, after the
fix-mask is applied. -/
def ContinuousSDE.xt0Of {γ : Type} (c : ContinuousSDE γ) (a : ContArgs γ) : Vec :=
  applyMask c.fix_mask a.prior (c.warmInit a).2

/-- The history buffer after the initial write of slot 0. -/
def ContinuousSDE.hist0Of {γ : Type} (c : ContinuousSDE γ) (a : ContArgs γ) : ℕ → Vec :=
  if a.preserve_history then Function.update a.hist_init 0 (c.xt0Of a) else a.hist_init

/-- `model = self.model if not use_ema else self.model_ema`. -/
def ContinuousSDE.modelOf {γ : Type} (c : ContinuousSDE γ) (a : ContArgs γ) : NN γ :=
  if a.use_ema then c.nnModelEma else c.nnModel

/-- The loop context of a continuous sampling call. -/
def ContinuousSDE.ctxOf {γ : Type} (c : ContinuousSDE γ) (solver : Solver)
    (a : ContArgs γ) (hs stds : ℕ → ℚ) : StepCtx γ :=
  ⟨c.toSDEBase, c.modelOf a,
   a.condition_cfg.map (fun v => (c.modelOf a).condition v a.mask_cfg),
   a.condition_cg, a.w_cfg, a.w_cg,
   solver, a.sample_steps, c.schedOf a,
   c.alphasOf a, c.sigmasOf a,
   hs, stds, a.prior, a.preserve_history, a.noises⟩

/-- The loop state entering the denoising loop. -/
def ContinuousSDE.initStateOf {γ : Type} (c : ContinuousSDE γ) (a : ContArgs γ) :
    LoopState :=
  ⟨c.xt0Of a, [], c.hist0Of a⟩

/-- The loop state after the whole denoising loop. -/
def ContinuousSDE.finalOf {γ : Type} (c : ContinuousSDE γ) (solver : Solver)
    (a : ContArgs γ) (hs stds : ℕ → ℚ) : LoopState :=
  denoiseLoop (c.ctxOf solver a hs stds)
    (loopSteps a.diffusion_x_sampling_steps a.sample_steps) 0 (c.initStateOf a)

/-- The loop state of a continuous sampling call after its first `k`
iterations. -/
def ContinuousSDE.stateAfter {γ : Type} (c : ContinuousSDE γ) (solver : Solver)
    (a : ContArgs γ) (k : ℕ) : LoopState :=
  denoiseLoop (c.ctxOf solver a (c.hsOf a) (c.stdsOf a))
    ((loopSteps a.diffusion_x_sampling_steps a.sample_steps).take k) 0 (c.initStateOf a)

/-- The body of `ContinuousDiffusionSDE.sample` with `hs` and `stds`
passed explicitly; identical loop structure to the discrete case, with
time values instead of step indices and with the post-processing
guard `classifier is not None and w_cg != 0`. -/
def ContinuousSDE.sampleWithArrays {γ : Type} (c : ContinuousSDE γ) (solver : Solver)
    (a : ContArgs γ) (hs stds : ℕ → ℚ) : Vec × SampleLog :=
  let final := c.finalOf solver a hs stds
  let log_p : Option ℚ := match c.classifier with
    | some cls => if a.w_cg = 0 then none else some (cls.logp final.xt 0 a.condition_cg)
    | none => none
  let xtOut := if c.clip_pred then vclipo c.x_min c.x_max final.xt else final.xt
  (xtOut,
   ⟨if a.preserve_history then some ((List.range (a.sample_steps + 1)).map final.hist)
     else none,
    log_p⟩)

/-- `ContinuousDiffusionSDE.sample` (after the solver-name assertion). -/
def ContinuousSDE.sample {γ : Type} (c : ContinuousSDE γ) (solver : Solver)
    (a : ContArgs γ) : Vec × SampleLog :=
  c.sampleWithArrays solver a (c.hsOf a) (c.stdsOf a)

/-- `ContinuousDiffusionSDE.sample` including the solver-name
assertion. -/
def ContinuousSDE.sampleChecked {γ : Type} (c : ContinuousSDE γ) (solverName : String)
    (a : ContArgs γ) : Option (Vec × SampleLog) :=
  match Solver.ofString solverName with
  | none => none
  | some sv => some (c.sample sv a)

/-! ### Helper lemmas and concrete instances -/

/-- Identity interpretation of the transcendental primitives, used to
evaluate the embedding on concrete inputs. -/
def idPrims : MathPrims := ⟨fun x => x, fun x => x, fun x => x, fun x => x⟩

/-- A trivial predictor used for concrete evaluation. -/
def unitNN : NN Unit := ⟨fun x _ _ => x, fun v _ => v⟩

/-- A trivial classifier used for concrete evaluation. -/
def unitCls : Classifier Unit := ⟨fun x _ _ => (0, x), fun _ _ _ => 0⟩

lemma bufLast_append (l : List Vec) (v : Vec) : bufLast (l ++ [v]) = v := by
  simp [bufLast]

lemma bufLast2_append (l : List Vec) (v : Vec) : bufLast2 (l ++ [v]) = l.getLastD [] := by
  simp [bufLast2]

lemma ofString_isSome_iff (s : String) :
    (Solver.ofString s).isSome = true ↔ s ∈ SUPPORTED_SOLVERS := by
  unfold Solver.ofString
  simp only [SUPPORTED_SOLVERS, List.mem_cons, List.not_mem_nil, or_false]
  split_ifs with h1 h2 h3 h4 h5 h6 h7 h8 <;> simp_all

/-! ### Claim C7: the prediction conversions are exact inverses -/

/-- Claim C7: for every x, every alpha different from 0, every sigma
different from 0 and every prediction value v, `epstheta_to_xtheta`
and `xtheta_to_epstheta` at the same fixed x, alpha, sigma are exact
inverses in both orders (exactly, over the rationals). -/
theorem C7_conversions_inverse (x alpha sigma v : ℚ)
    (halpha : alpha ≠ 0) (hsigma : sigma ≠ 0) :
    xtheta_to_epstheta x alpha sigma (epstheta_to_xtheta x alpha sigma v) = v ∧
    epstheta_to_xtheta x alpha sigma (xtheta_to_epstheta x alpha sigma v) = v := by
  unfold epstheta_to_xtheta xtheta_to_epstheta
  constructor <;> field_simp

/-- Witness for C7 at x = 5, alpha = 2, sigma = 3, v = 7. -/
theorem C7_conversions_inverse_witness :
    (2 : ℚ) ≠ 0 ∧ (3 : ℚ) ≠ 0 ∧
    xtheta_to_epstheta 5 2 3 (epstheta_to_xtheta 5 2 3 7) = 7 ∧
    epstheta_to_xtheta 5 2 3 (xtheta_to_epstheta 5 2 3 7) = 7 :=
  ⟨by norm_num, by norm_num,
   (C7_conversions_inverse 5 2 3 7 (by norm_num) (by norm_num)).1,
   (C7_conversions_inverse 5 2 3 7 (by norm_num) (by norm_num)).2⟩

/-! ### Claims C2 and C4: post-processing log and preconditions -/

/-- A concrete discrete model with no classifier, for evaluation. -/
def dUnit : DiscreteSDE Unit :=
  ⟨⟨idPrims, [0], none, true, none, none, unitNN, unitNN⟩, 10, fun _ => 1, fun _ => 1⟩

/-- A concrete discrete model with a classifier attached. -/
def dWithCls : DiscreteSDE Unit :=
  ⟨⟨idPrims, [0], some unitCls, true, none, none, unitNN, unitNN⟩, 10,
   fun _ => 1, fun _ => 1⟩

/-- Concrete sampling arguments: prior [0], one sampling step, no
guidance, no warm start, temperature 1. -/
def aUnit : DiscreteArgs Unit :=
  ⟨[0], 1, fun _ _ i => i, true, 1, none, none, 0, none, 0, 0, none, 0, false,
   [0], fun _ => [0], fun _ => []⟩

/-- Counterexample to claim C2: in `DiscreteDiffusionSDE.sample` the
final log-probability is stored although the classifier-guidance
weight `w_cg` is zero — the discrete post-processing checks only that
a classifier is attached. -/
theorem C2_counterexample :
    aUnit.w_cg = 0 ∧ dWithCls.classifier.isSome = true ∧
    (dWithCls.sample Solver.ddpm aUnit).2.log_p ≠ none := by decide

/-- Claim C2 as amended: in `ContinuousDiffusionSDE.sample` the log
contains "log_p" iff a classifier is attached and `w_cg` is nonzero;
in `DiscreteDiffusionSDE.sample` it contains "log_p" iff a classifier
is attached, regardless of `w_cg`. -/
theorem C2_amended :
    (∀ (γ : Type) (d : DiscreteSDE γ) (sv : Solver) (a : DiscreteArgs γ),
      (d.sample sv a).2.log_p = none ↔ d.classifier = none) ∧
    (∀ (γ : Type) (c : ContinuousSDE γ) (sv : Solver) (a : ContArgs γ),
      (c.sample sv a).2.log_p = none ↔ (c.classifier = none ∨ a.w_cg = 0)) := by
  constructor
  · intro γ d sv a
    simp only [DiscreteSDE.sample, DiscreteSDE.sampleWithArrays]
    cases hcl : d.classifier <;> simp [hcl]
  · intro γ c sv a
    simp only [ContinuousSDE.sample, ContinuousSDE.sampleWithArrays]
    cases hcl : c.classifier with
    | none => simp [hcl]
    | some cls =>
      by_cases hw : a.w_cg = 0 <;> simp [hcl, hw]

/-- Counterexample to claim C4: a discrete sampling call with
`sample_steps = 1` raises no assertion and completes normally. -/
theorem C4_counterexample :
    aUnit.sample_steps = 1 ∧ (dUnit.sampleChecked "ddpm" aUnit).isSome = true := by
  decide

/-- Claim C4 as amended: the only assertion raised before the
denoising loop is the solver-name check; `sample_steps` is not
checked, so calls with `sample_steps <= 1` (or, in the discrete case,
with `sample_steps > diffusion_steps`) proceed into the loop and
return normally whenever the solver name is supported. -/
theorem C4_amended :
    (∀ (γ : Type) (d : DiscreteSDE γ) (name : String) (a : DiscreteArgs γ),
      (d.sampleChecked name a).isSome = true ↔ name ∈ SUPPORTED_SOLVERS) ∧
    (∀ (γ : Type) (c : ContinuousSDE γ) (name : String) (a : ContArgs γ),
      (c.sampleChecked name a).isSome = true ↔ name ∈ SUPPORTED_SOLVERS) := by
  constructor
  · intro γ d name a
    rw [← ofString_isSome_iff]
    unfold DiscreteSDE.sampleChecked
    cases Solver.ofString name <;> simp
  · intro γ c name a
    rw [← ofString_isSome_iff]
    unfold ContinuousSDE.sampleChecked
    cases Solver.ofString name <;> simp

/-! ### Claim C6: stochastic vs deterministic first-order updates -/

lemma sde1_length (P : MathPrims) (n : ℕ) (alphas sigmas hs stds : ℕ → ℚ) (i : ℕ)
    (xt eps xθ : Vec) (buffer : List Vec) (z : Vec) :
    (solverUpdate P .sde_dpmsolver_1 n alphas sigmas hs stds i xt eps xθ buffer z).1.length
      = min (min xt.length eps.length) z.length := by
  simp [solverUpdate]

lemma ode1_length (P : MathPrims) (n : ℕ) (alphas sigmas hs stds : ℕ → ℚ) (i : ℕ)
    (xt eps xθ : Vec) (buffer : List Vec) (z : Vec) :
    (solverUpdate P .ode_dpmsolver_1 n alphas sigmas hs stds i xt eps xθ buffer z).1.length
      = min xt.length eps.length := by
  simp [solverUpdate]

lemma sdepp1_length (P : MathPrims) (n : ℕ) (alphas sigmas hs stds : ℕ → ℚ) (i : ℕ)
    (xt eps xθ : Vec) (buffer : List Vec) (z : Vec) :
    (solverUpdate P .sde_dpmsolver_pp_1 n alphas sigmas hs stds i xt eps xθ buffer z).1.length
      = min (min xt.length xθ.length) z.length := by
  simp [solverUpdate]

lemma sde1_getD (P : MathPrims) (n : ℕ) (alphas sigmas hs stds : ℕ → ℚ) (i : ℕ)
    (xt eps xθ : Vec) (buffer : List Vec) (z : Vec) (j : ℕ)
    (hx : j < xt.length) (he : j < eps.length) (hz : j < z.length) :
    (solverUpdate P .sde_dpmsolver_1 n alphas sigmas hs stds i xt eps xθ buffer z).1.getD j 0
      = alphas (i - 1) / alphas i * xt.getD j 0
        - 2 * sigmas (i - 1) * P.expm1 (hs i) * eps.getD j 0
        + sigmas (i - 1) * P.sqrt (P.expm1 (2 * hs i)) * z.getD j 0 := by
  simp only [solverUpdate]
  rw [vadd_getD _ _ _ (by simp; omega) (by simpa using hz)]
  rw [vsub_getD _ _ _ (by simpa using hx) (by simpa using he)]
  rw [vsmul_getD _ _ _ hx, vsmul_getD _ _ _ he, vsmul_getD _ _ _ hz]

lemma ode1_getD (P : MathPrims) (n : ℕ) (alphas sigmas hs stds : ℕ → ℚ) (i : ℕ)
    (xt eps xθ : Vec) (buffer : List Vec) (z : Vec) (j : ℕ)
    (hx : j < xt.length) (he : j < eps.length) :
    (solverUpdate P .ode_dpmsolver_1 n alphas sigmas hs stds i xt eps xθ buffer z).1.getD j 0
      = alphas (i - 1) / alphas i * xt.getD j 0
        - sigmas (i - 1) * P.expm1 (hs i) * eps.getD j 0 := by
  simp only [solverUpdate]
  rw [vsub_getD _ _ _ (by simpa using hx) (by simpa using he)]
  rw [vsmul_getD _ _ _ hx, vsmul_getD _ _ _ he]

lemma sdepp1_getD (P : MathPrims) (n : ℕ) (alphas sigmas hs stds : ℕ → ℚ) (i : ℕ)
    (xt eps xθ : Vec) (buffer : List Vec) (z : Vec) (j : ℕ)
    (hx : j < xt.length) (ht : j < xθ.length) (hz : j < z.length) :
    (solverUpdate P .sde_dpmsolver_pp_1 n alphas sigmas hs stds i xt eps xθ buffer z).1.getD j 0
      = sigmas (i - 1) / sigmas i * P.exp (-hs i) * xt.getD j 0
        - alphas (i - 1) * P.expm1 (-(2 * hs i)) * xθ.getD j 0
        + sigmas (i - 1) * P.sqrt (-P.expm1 (-(2 * hs i))) * z.getD j 0 := by
  simp only [solverUpdate]
  rw [vadd_getD _ _ _ (by simp; omega) (by simpa using hz)]
  rw [vsub_getD _ _ _ (by simpa using hx) (by simpa using ht)]
  rw [vsmul_getD _ _ _ hx, vsmul_getD _ _ _ ht, vsmul_getD _ _ _ hz]

/-- Counterexample to claim C6: at a concrete input the
`sde_dpmsolver_1` update is NOT the `ode_dpmsolver_1` update plus the
noise term `sigma_{i-1} * sqrt(expm1(2 h_i)) * noise` — the
deterministic parts differ (the stochastic rule doubles the
`eps_theta` coefficient). -/
theorem C6_counterexample :
    ¬ ((solverUpdate idPrims .sde_dpmsolver_1 2 (fun _ => 1) (fun _ => 1) (fun _ => 1)
          (fun _ => 0) 1 [0] [1] [1] [] [0]).1 =
       vadd (solverUpdate idPrims .ode_dpmsolver_1 2 (fun _ => 1) (fun _ => 1) (fun _ => 1)
          (fun _ => 0) 1 [0] [1] [1] [] [0]).1
         (vsmul (1 * idPrims.sqrt (idPrims.expm1 (2 * 1))) [0])) := by
  simp only [solverUpdate, idPrims, vadd, vsub, vsmul, List.map_cons, List.map_nil,
    List.zipWith_cons_cons, List.zipWith_nil_right, List.zipWith_nil_left,
    List.cons.injEq, and_true, ne_eq]
  norm_num

/-- Claim C6 as amended: each stochastic first-order update equals its
own deterministic (zero-noise) part plus exactly the claimed noise
term (`sigma_{i-1}*sqrt(expm1(2 h_i))*noise` for `sde_dpmsolver_1` and
`sigma_{i-1}*sqrt(-expm1(-2 h_i))*noise` for `sde_dpmsolver++_1`), but
those deterministic parts are not the ODE updates: `sde_dpmsolver_1`
differs from `ode_dpmsolver_1` by an extra
`- sigma_{i-1}*expm1(h_i)*eps_theta` (a doubled `eps_theta`
coefficient), and `sde_dpmsolver++_1` scales the `x` term by
`exp(-h_i)` and uses `expm1(-2 h_i)` in place of `expm1(-h_i)`. -/
theorem C6_amended (P : MathPrims) (n : ℕ) (alphas sigmas hs stds : ℕ → ℚ) (i : ℕ)
    (xt eps xθ : Vec) (buffer : List Vec) (z : Vec) :
    (solverUpdate P .sde_dpmsolver_1 n alphas sigmas hs stds i xt eps xθ buffer z).1 =
      vadd (solverUpdate P .sde_dpmsolver_1 n alphas sigmas hs stds i xt eps xθ buffer
              (vsmul 0 z)).1
           (vsmul (sigmas (i - 1) * P.sqrt (P.expm1 (2 * hs i))) z) ∧
    (solverUpdate P .sde_dpmsolver_1 n alphas sigmas hs stds i xt eps xθ buffer z).1 =
      vadd (vsub (solverUpdate P .ode_dpmsolver_1 n alphas sigmas hs stds i xt eps xθ buffer z).1
                 (vsmul (sigmas (i - 1) * P.expm1 (hs i)) eps))
           (vsmul (sigmas (i - 1) * P.sqrt (P.expm1 (2 * hs i))) z) ∧
    (solverUpdate P .sde_dpmsolver_pp_1 n alphas sigmas hs stds i xt eps xθ buffer z).1 =
      vadd (solverUpdate P .sde_dpmsolver_pp_1 n alphas sigmas hs stds i xt eps xθ buffer
              (vsmul 0 z)).1
           (vsmul (sigmas (i - 1) * P.sqrt (-P.expm1 (-(2 * hs i)))) z) := by
  refine ⟨?_, ?_, ?_⟩
  · apply vec_ext
    · simp [solverUpdate]
    · intro j hj
      rw [sde1_length] at hj
      have hx : j < xt.length := by omega
      have he : j < eps.length := by omega
      have hz : j < z.length := by omega
      rw [sde1_getD _ _ _ _ _ _ _ _ _ _ _ _ _ hx he hz]
      rw [vadd_getD _ _ _ (by simp [sde1_length]; omega) (by simpa using hz)]
      rw [sde1_getD _ _ _ _ _ _ _ _ _ _ _ _ _ hx he (by simpa using hz)]
      rw [vsmul_getD _ _ _ hz, vsmul_getD _ _ _ hz]
      ring
  · apply vec_ext
    · simp [solverUpdate]
    · intro j hj
      rw [sde1_length] at hj
      have hx : j < xt.length := by omega
      have he : j < eps.length := by omega
      have hz : j < z.length := by omega
      rw [sde1_getD _ _ _ _ _ _ _ _ _ _ _ _ _ hx he hz]
      rw [vadd_getD _ _ _ (by simp [ode1_length]; omega) (by simpa using hz)]
      rw [vsub_getD _ _ _ (by simp [ode1_length]; omega) (by simpa using he)]
      rw [ode1_getD _ _ _ _ _ _ _ _ _ _ _ _ _ hx he]
      rw [vsmul_getD _ _ _ he, vsmul_getD _ _ _ hz]
      ring
  · apply vec_ext
    · simp [solverUpdate]
    · intro j hj
      rw [sdepp1_length] at hj
      have hx : j < xt.length := by omega
      have ht : j < xθ.length := by omega
      have hz : j < z.length := by omega
      rw [sdepp1_getD _ _ _ _ _ _ _ _ _ _ _ _ _ hx ht hz]
      rw [vadd_getD _ _ _ (by simp [sdepp1_length]; omega) (by simpa using hz)]
      rw [sdepp1_getD _ _ _ _ _ _ _ _ _ _ _ _ _ hx ht (by simpa using hz)]
      rw [vsmul_getD _ _ _ hz, vsmul_getD _ _ _ hz]
      ring

/-! ### Claim C8: the multistep solver against its first-order form -/

lemma odepp1_getD (P : MathPrims) (n : ℕ) (alphas sigmas hs stds : ℕ → ℚ) (i : ℕ)
    (xt eps xθ : Vec) (buffer : List Vec) (z : Vec) (j : ℕ)
    (hx : j < xt.length) (ht : j < xθ.length) :
    (solverUpdate P .ode_dpmsolver_pp_1 n alphas sigmas hs stds i xt eps xθ buffer z).1.getD j 0
      = sigmas (i - 1) / sigmas i * xt.getD j 0
        - alphas (i - 1) * P.expm1 (-hs i) * xθ.getD j 0 := by
  simp only [solverUpdate]
  rw [vsub_getD _ _ _ (by simpa using hx) (by simpa using ht)]
  rw [vsmul_getD _ _ _ hx, vsmul_getD _ _ _ ht]

lemma odepp2M_getD (P : MathPrims) (n : ℕ) (alphas sigmas hs stds : ℕ → ℚ) (i : ℕ)
    (xt eps xθ : Vec) (buffer : List Vec) (z : Vec) (j : ℕ) (him : i < n)
    (hx : j < xt.length) (ht : j < xθ.length)
    (hp : j < (bufLast2 (buffer ++ [xθ])).length) :
    (solverUpdate P .ode_dpmsolver_pp_2M n alphas sigmas hs stds i xt eps xθ buffer z).1.getD j 0
      = sigmas (i - 1) / sigmas i * xt.getD j 0
        - alphas (i - 1) * P.expm1 (-hs i) *
          ((1 + 1 / 2 / (hs (i + 1) / hs i)) * xθ.getD j 0
            - 1 / 2 / (hs (i + 1) / hs i) * (bufLast2 (buffer ++ [xθ])).getD j 0) := by
  simp only [solverUpdate, him, if_true, bufLast_append]
  rw [vsub_getD _ _ _ (by simpa using hx) (by simp; omega)]
  rw [vsmul_getD _ _ _ hx]
  rw [vsmul_getD _ _ _ (by simp; omega)]
  rw [vsub_getD _ _ _ (by simpa using ht) (by simpa using hp)]
  rw [vsmul_getD _ _ _ ht, vsmul_getD _ _ _ hp]

/-- Claim C8: on the first update of the denoising loop (loop index
i = sample_steps) the `ode_dpmsolver++_2M` solver computes exactly the
same next state as `ode_dpmsolver++_1` from the same inputs; at any
later index (i < sample_steps) the two updates differ at every
coordinate where the two buffered data-form predictions differ
(under the schedule invariants: nonzero `alpha_{i-1}`, nonzero
`expm1(-h_i)` and nonzero step sizes `h_i`, `h_{i+1}`). -/
theorem C8_multistep_2M :
    (∀ (P : MathPrims) (n : ℕ) (alphas sigmas hs stds : ℕ → ℚ)
       (xt eps xθ : Vec) (buffer : List Vec) (z : Vec),
      (solverUpdate P .ode_dpmsolver_pp_2M n alphas sigmas hs stds n xt eps xθ buffer z).1 =
      (solverUpdate P .ode_dpmsolver_pp_1 n alphas sigmas hs stds n xt eps xθ buffer z).1) ∧
    (∀ (P : MathPrims) (n : ℕ) (alphas sigmas hs stds : ℕ → ℚ) (i : ℕ)
       (xt eps xθ : Vec) (buffer : List Vec) (z : Vec) (c : ℕ),
      i < n → alphas (i - 1) ≠ 0 → P.expm1 (-hs i) ≠ 0 →
      hs i ≠ 0 → hs (i + 1) ≠ 0 →
      c < xt.length → c < xθ.length → c < (bufLast2 (buffer ++ [xθ])).length →
      xθ.getD c 0 ≠ (bufLast2 (buffer ++ [xθ])).getD c 0 →
      (solverUpdate P .ode_dpmsolver_pp_2M n alphas sigmas hs stds i xt eps xθ buffer z).1 ≠
      (solverUpdate P .ode_dpmsolver_pp_1 n alphas sigmas hs stds i xt eps xθ buffer z).1) := by
  constructor
  · intro P n alphas sigmas hs stds xt eps xθ buffer z
    simp [solverUpdate]
  · intro P n alphas sigmas hs stds i xt eps xθ buffer z c
    intro him hα hE hh0 hh1 hx ht hp hneq
    intro heq
    have h1 := congrArg (fun l => List.getD l c 0) heq
    simp only at h1
    rw [odepp2M_getD P n alphas sigmas hs stds i xt eps xθ buffer z c him hx ht hp] at h1
    rw [odepp1_getD P n alphas sigmas hs stds i xt eps xθ buffer z c hx ht] at h1
    have hr : hs (i + 1) / hs i ≠ 0 := div_ne_zero hh1 hh0
    have hq : (1 : ℚ) / 2 / (hs (i + 1) / hs i) ≠ 0 := div_ne_zero (by norm_num) hr
    have hd : xθ.getD c 0 - (bufLast2 (buffer ++ [xθ])).getD c 0 ≠ 0 := sub_ne_zero.mpr hneq
    have h2 : alphas (i - 1) * P.expm1 (-hs i) * (1 / 2 / (hs (i + 1) / hs i)) *
        (xθ.getD c 0 - (bufLast2 (buffer ++ [xθ])).getD c 0) = 0 := by
      linear_combination -h1
    exact mul_ne_zero (mul_ne_zero (mul_ne_zero hα hE) hq) hd h2

/-- Witness for C8 at a concrete input: n = 2, i = 1, unit schedule,
current data prediction [1] against buffered prediction [0]. -/
theorem C8_multistep_2M_witness :
    (1 : ℕ) < 2 ∧
    (solverUpdate idPrims .ode_dpmsolver_pp_2M 2 (fun _ => 1) (fun _ => 1) (fun _ => 1)
        (fun _ => 0) 1 [0] [0] [1] [[0]] [0]).1 ≠
    (solverUpdate idPrims .ode_dpmsolver_pp_1 2 (fun _ => 1) (fun _ => 1) (fun _ => 1)
        (fun _ => 0) 1 [0] [0] [1] [[0]] [0]).1 :=
  ⟨by norm_num,
   C8_multistep_2M.2 idPrims 2 (fun _ => 1) (fun _ => 1) (fun _ => 1) (fun _ => 0) 1
     [0] [0] [1] [[0]] [0] 0
     (by norm_num) (by norm_num) (by norm_num [idPrims]) (by norm_num) (by norm_num)
     (by norm_num) (by norm_num) (by norm_num [bufLast2]) (by norm_num [bufLast2])⟩

/-! ### Claim C1: the fix-mask invariant -/

/-- At every coordinate where the mask is 1, `v` holds the prior. -/
def MaskProp (mask prior v : Vec) : Prop :=
  ∀ j, j < v.length → mask.getD j 0 = 1 → v.getD j 0 = prior.getD j 0

lemma stepIter_mask {γ : Type} (c : StepCtx γ) (k i : ℕ) (st : LoopState) :
    MaskProp c.base.fix_mask c.prior (stepIter c k i st).xt := by
  intro j hj hm
  exact applyMask_fixed _ _ _ j hj hm

lemma denoiseLoop_mask {γ : Type} (c : StepCtx γ) :
    ∀ (steps : List ℕ) (k : ℕ) (st : LoopState),
      MaskProp c.base.fix_mask c.prior st.xt →
      MaskProp c.base.fix_mask c.prior (denoiseLoop c steps k st).xt := by
  intro steps
  induction steps with
  | nil => intro k st h; exact h
  | cons i rest ih =>
    intro k st _
    exact ih (k + 1) (stepIter c k i st) (stepIter_mask c k i st)

lemma discrete_init_mask {γ : Type} (d : DiscreteSDE γ) (a : DiscreteArgs γ) :
    MaskProp d.fix_mask a.prior (d.initStateOf a).xt := by
  intro j hj hm
  exact applyMask_fixed _ _ _ j hj hm

lemma continuous_init_mask {γ : Type} (c : ContinuousSDE γ) (a : ContArgs γ) :
    MaskProp c.fix_mask a.prior (c.initStateOf a).xt := by
  intro j hj hm
  exact applyMask_fixed _ _ _ j hj hm

/-- Claim C1: for every solver, every step count and every step of the
denoising loop of `DiscreteDiffusionSDE.sample` and
`ContinuousDiffusionSDE.sample`, the fix-mask invariant holds after
the step (and already for the initial state, k = 0): at every
coordinate where `fix_mask` is 1, the state equals the prior at that
coordinate; and the returned terminal sample satisfies it as well when
no data-range clipping is configured. -/
theorem C1_fix_mask :
    (∀ (γ : Type) (d : DiscreteSDE γ) (sv : Solver) (a : DiscreteArgs γ) (k j : ℕ),
      j < (d.stateAfter sv a k).xt.length → d.fix_mask.getD j 0 = 1 →
      (d.stateAfter sv a k).xt.getD j 0 = a.prior.getD j 0) ∧
    (∀ (γ : Type) (d : DiscreteSDE γ) (sv : Solver) (a : DiscreteArgs γ) (j : ℕ),
      d.x_max = none → d.x_min = none →
      j < (d.sample sv a).1.length → d.fix_mask.getD j 0 = 1 →
      (d.sample sv a).1.getD j 0 = a.prior.getD j 0) ∧
    (∀ (γ : Type) (c : ContinuousSDE γ) (sv : Solver) (a : ContArgs γ) (k j : ℕ),
      j < (c.stateAfter sv a k).xt.length → c.fix_mask.getD j 0 = 1 →
      (c.stateAfter sv a k).xt.getD j 0 = a.prior.getD j 0) ∧
    (∀ (γ : Type) (c : ContinuousSDE γ) (sv : Solver) (a : ContArgs γ) (j : ℕ),
      c.x_max = none → c.x_min = none →
      j < (c.sample sv a).1.length → c.fix_mask.getD j 0 = 1 →
      (c.sample sv a).1.getD j 0 = a.prior.getD j 0) := by
  refine ⟨?_, ?_, ?_, ?_⟩
  · intro γ d sv a k j hj hm
    exact denoiseLoop_mask _ _ 0 _ (discrete_init_mask d a) j hj hm
  · intro γ d sv a j hmax hmin hj hm
    have hxt : (d.sample sv a).1 = (d.finalOf sv a (d.hsOf a) (d.stdsOf a)).xt := by
      simp [DiscreteSDE.sample, DiscreteSDE.sampleWithArrays, SDEBase.clip_pred, hmax, hmin]
    rw [hxt] at hj ⊢
    exact denoiseLoop_mask _ _ 0 _ (discrete_init_mask d a) j hj hm
  · intro γ c sv a k j hj hm
    exact denoiseLoop_mask _ _ 0 _ (continuous_init_mask c a) j hj hm
  · intro γ c sv a j hmax hmin hj hm
    have hxt : (c.sample sv a).1 = (c.finalOf sv a (c.hsOf a) (c.stdsOf a)).xt := by
      simp [ContinuousSDE.sample, ContinuousSDE.sampleWithArrays, SDEBase.clip_pred, hmax, hmin]
    rw [hxt] at hj ⊢
    exact denoiseLoop_mask _ _ 0 _ (continuous_init_mask c a) j hj hm

/-- A concrete discrete model whose single coordinate is masked. -/
def dMask : DiscreteSDE Unit :=
  ⟨⟨idPrims, [1], none, true, none, none, unitNN, unitNN⟩, 10, fun _ => 1, fun _ => 1⟩

/-- Concrete arguments with prior [5] for the masked model. -/
def aMask : DiscreteArgs Unit :=
  ⟨[5], 1, fun _ _ i => i, true, 1, none, none, 0, none, 0, 0, none, 0, false,
   [3], fun _ => [2], fun _ => []⟩

/-- Witness for C1: after one ddpm step of the masked model, the
masked coordinate holds the prior value 5. -/
theorem C1_fix_mask_witness :
    0 < (dMask.stateAfter Solver.ddpm aMask 1).xt.length ∧
    dMask.fix_mask.getD 0 0 = 1 ∧
    (dMask.stateAfter Solver.ddpm aMask 1).xt.getD 0 0 = aMask.prior.getD 0 0 :=
  ⟨by decide, by decide,
   C1_fix_mask.1 Unit dMask Solver.ddpm aMask 1 0 (by decide) (by decide)⟩

/-! ### Claim C9: index 0 of hs and stds is dead -/

lemma solverUpdate_congr_arrays (P : MathPrims) (sv : Solver) (n : ℕ)
    (alphas sigmas hs1 stds1 hs2 stds2 : ℕ → ℚ) (i : ℕ)
    (xt eps xθ : Vec) (buffer : List Vec) (z : Vec) (hi : 1 ≤ i)
    (hhs : ∀ j, 1 ≤ j → hs1 j = hs2 j) (hstds : ∀ j, 1 ≤ j → stds1 j = stds2 j) :
    solverUpdate P sv n alphas sigmas hs1 stds1 i xt eps xθ buffer z =
    solverUpdate P sv n alphas sigmas hs2 stds2 i xt eps xθ buffer z := by
  have e1 : hs1 i = hs2 i := hhs i hi
  have e2 : hs1 (i + 1) = hs2 (i + 1) := hhs (i + 1) (by omega)
  have e3 : stds1 i = stds2 i := hstds i hi
  cases sv <;> simp only [solverUpdate, e1, e2, e3]

lemma stepIter_congr_arrays {γ : Type} (base : SDEBase γ) (model : NN γ)
    (ccfg ccg : Option γ) (wcfg wcg : ℚ) (sv : Solver) (n : ℕ)
    (tOf alphas sigmas hs1 stds1 hs2 stds2 : ℕ → ℚ) (prior : Vec) (pres : Bool)
    (noises : ℕ → Vec) (k i : ℕ) (st : LoopState) (hi : 1 ≤ i)
    (hhs : ∀ j, 1 ≤ j → hs1 j = hs2 j) (hstds : ∀ j, 1 ≤ j → stds1 j = stds2 j) :
    stepIter ⟨base, model, ccfg, ccg, wcfg, wcg, sv, n, tOf, alphas, sigmas,
              hs1, stds1, prior, pres, noises⟩ k i st =
    stepIter ⟨base, model, ccfg, ccg, wcfg, wcg, sv, n, tOf, alphas, sigmas,
              hs2, stds2, prior, pres, noises⟩ k i st := by
  simp only [stepIter]
  rw [solverUpdate_congr_arrays base.prims sv n alphas sigmas hs1 stds1 hs2 stds2 i
        _ _ _ _ _ hi hhs hstds]

lemma denoiseLoop_congr_arrays {γ : Type} (base : SDEBase γ) (model : NN γ)
    (ccfg ccg : Option γ) (wcfg wcg : ℚ) (sv : Solver) (n : ℕ)
    (tOf alphas sigmas hs1 stds1 hs2 stds2 : ℕ → ℚ) (prior : Vec) (pres : Bool)
    (noises : ℕ → Vec)
    (hhs : ∀ j, 1 ≤ j → hs1 j = hs2 j) (hstds : ∀ j, 1 ≤ j → stds1 j = stds2 j) :
    ∀ (steps : List ℕ), (∀ j ∈ steps, 1 ≤ j) → ∀ (k : ℕ) (st : LoopState),
    denoiseLoop ⟨base, model, ccfg, ccg, wcfg, wcg, sv, n, tOf, alphas, sigmas,
                 hs1, stds1, prior, pres, noises⟩ steps k st =
    denoiseLoop ⟨base, model, ccfg, ccg, wcfg, wcg, sv, n, tOf, alphas, sigmas,
                 hs2, stds2, prior, pres, noises⟩ steps k st := by
  intro steps
  induction steps with
  | nil => intro _ k st; rfl
  | cons i rest ih =>
    intro hpos k st
    simp only [denoiseLoop]
    rw [stepIter_congr_arrays base model ccfg ccg wcfg wcg sv n tOf alphas sigmas
          hs1 stds1 hs2 stds2 prior pres noises k i st (hpos i (by simp)) hhs hstds]
    exact ih (fun j hj => hpos j (by simp [hj])) (k + 1) _

lemma loopSteps_pos (dx n : ℕ) : ∀ j ∈ loopSteps dx n, 1 ≤ j := by
  intro j hj
  simp only [loopSteps, List.mem_append, List.mem_reverse, List.mem_range',
    List.mem_replicate] at hj
  rcases hj with h | h
  · omega
  · omega

lemma discrete_finalOf_congr_arrays {γ : Type} (d : DiscreteSDE γ) (sv : Solver)
    (a : DiscreteArgs γ) (hs1 stds1 hs2 stds2 : ℕ → ℚ)
    (hhs : ∀ j, 1 ≤ j → hs1 j = hs2 j) (hstds : ∀ j, 1 ≤ j → stds1 j = stds2 j) :
    d.finalOf sv a hs1 stds1 = d.finalOf sv a hs2 stds2 :=
  denoiseLoop_congr_arrays d.toSDEBase (d.modelOf a)
    (a.condition_cfg.map (fun v => (d.modelOf a).condition v a.mask_cfg))
    a.condition_cg a.w_cfg a.w_cg sv a.sample_steps
    (fun i => (d.schedOf a i : ℚ))
    (fun i => d.alphaArr (d.schedOf a i)) (fun i => d.sigmaArr (d.schedOf a i))
    hs1 stds1 hs2 stds2 a.prior a.preserve_history a.noises hhs hstds
    (loopSteps a.diffusion_x_sampling_steps a.sample_steps)
    (loopSteps_pos _ _) 0 (d.initStateOf a)

lemma continuous_finalOf_congr_arrays {γ : Type} (c : ContinuousSDE γ) (sv : Solver)
    (a : ContArgs γ) (hs1 stds1 hs2 stds2 : ℕ → ℚ)
    (hhs : ∀ j, 1 ≤ j → hs1 j = hs2 j) (hstds : ∀ j, 1 ≤ j → stds1 j = stds2 j) :
    c.finalOf sv a hs1 stds1 = c.finalOf sv a hs2 stds2 :=
  denoiseLoop_congr_arrays c.toSDEBase (c.modelOf a)
    (a.condition_cfg.map (fun v => (c.modelOf a).condition v a.mask_cfg))
    a.condition_cg a.w_cfg a.w_cg sv a.sample_steps
    (c.schedOf a) (c.alphasOf a) (c.sigmasOf a)
    hs1 stds1 hs2 stds2 a.prior a.preserve_history a.noises hhs hstds
    (loopSteps a.diffusion_x_sampling_steps a.sample_steps)
    (loopSteps_pos _ _) 0 (c.initStateOf a)

/-- Claim C9: index 0 of the `hs` and `stds` arrays is dead in every
sampling call with `sample_steps >= 1`: the denoising loop (including
the multistep look-ahead and the diffusion-X repetitions), the history
writes and the post-processing never read `hs[0]` or `stds[0]`, so the
whole sampling result — returned sample and log alike — is unchanged
when index 0 of either array is replaced by arbitrary values. -/
theorem C9_dead_index_zero :
    (∀ (γ : Type) (d : DiscreteSDE γ) (sv : Solver) (a : DiscreteArgs γ)
       (hs1 stds1 hs2 stds2 : ℕ → ℚ), 1 ≤ a.sample_steps →
      (∀ j, 1 ≤ j → hs1 j = hs2 j) → (∀ j, 1 ≤ j → stds1 j = stds2 j) →
      d.sampleWithArrays sv a hs1 stds1 = d.sampleWithArrays sv a hs2 stds2) ∧
    (∀ (γ : Type) (d : DiscreteSDE γ) (sv : Solver) (a : DiscreteArgs γ) (h0 s0 : ℚ),
      1 ≤ a.sample_steps →
      d.sample sv a = d.sampleWithArrays sv a
        (Function.update (d.hsOf a) 0 h0) (Function.update (d.stdsOf a) 0 s0)) ∧
    (∀ (γ : Type) (c : ContinuousSDE γ) (sv : Solver) (a : ContArgs γ)
       (hs1 stds1 hs2 stds2 : ℕ → ℚ), 1 ≤ a.sample_steps →
      (∀ j, 1 ≤ j → hs1 j = hs2 j) → (∀ j, 1 ≤ j → stds1 j = stds2 j) →
      c.sampleWithArrays sv a hs1 stds1 = c.sampleWithArrays sv a hs2 stds2) ∧
    (∀ (γ : Type) (c : ContinuousSDE γ) (sv : Solver) (a : ContArgs γ) (h0 s0 : ℚ),
      1 ≤ a.sample_steps →
      c.sample sv a = c.sampleWithArrays sv a
        (Function.update (c.hsOf a) 0 h0) (Function.update (c.stdsOf a) 0 s0)) := by
  have hupd : ∀ (f : ℕ → ℚ) (v : ℚ) (j : ℕ), 1 ≤ j → f j = Function.update f 0 v j := by
    intro f v j hj
    rw [Function.update_noteq (by omega)]
  refine ⟨?_, ?_, ?_, ?_⟩
  · intro γ d sv a hs1 stds1 hs2 stds2 _ hhs hstds
    simp only [DiscreteSDE.sampleWithArrays]
    rw [discrete_finalOf_congr_arrays d sv a hs1 stds1 hs2 stds2 hhs hstds]
  · intro γ d sv a h0 s0 hn
    unfold DiscreteSDE.sample
    simp only [DiscreteSDE.sampleWithArrays]
    rw [discrete_finalOf_congr_arrays d sv a (d.hsOf a) (d.stdsOf a)
          (Function.update (d.hsOf a) 0 h0) (Function.update (d.stdsOf a) 0 s0)
          (hupd _ _) (hupd _ _)]
  · intro γ c sv a hs1 stds1 hs2 stds2 _ hhs hstds
    simp only [ContinuousSDE.sampleWithArrays]
    rw [continuous_finalOf_congr_arrays c sv a hs1 stds1 hs2 stds2 hhs hstds]
  · intro γ c sv a h0 s0 hn
    unfold ContinuousSDE.sample
    simp only [ContinuousSDE.sampleWithArrays]
    rw [continuous_finalOf_congr_arrays c sv a (c.hsOf a) (c.stdsOf a)
          (Function.update (c.hsOf a) 0 h0) (Function.update (c.stdsOf a) 0 s0)
          (hupd _ _) (hupd _ _)]

/-- Witness for C9: the concrete one-step call is unchanged when
`hs[0]` is replaced by 99 and `stds[0]` by 77. -/
theorem C9_dead_index_zero_witness :
    1 ≤ aUnit.sample_steps ∧
    dUnit.sample Solver.ddpm aUnit = dUnit.sampleWithArrays Solver.ddpm aUnit
      (Function.update (dUnit.hsOf aUnit) 0 99) (Function.update (dUnit.stdsOf aUnit) 0 77) :=
  ⟨by decide,
   C9_dead_index_zero.2.1 Unit dUnit Solver.ddpm aUnit 99 77 (by decide)⟩

/-! ### Claim C10: temperature is dead when warm-starting is active -/

lemma discrete_warmInit_temp {γ : Type} (d : DiscreteSDE γ) (a : DiscreteArgs γ) (t : ℚ)
    (href : a.warm_start_reference.isSome = true)
    (h0 : 0 < a.warm_start_forward_level) (h1 : a.warm_start_forward_level < 1) :
    d.warmInit { a with temperature := t } = d.warmInit a := by
  obtain ⟨r, hr⟩ := Option.isSome_iff_exists.mp href
  simp [DiscreteSDE.warmInit, hr, h0, h1]

lemma continuous_warmInit_temp {γ : Type} (c : ContinuousSDE γ) (a : ContArgs γ) (t : ℚ)
    (href : a.warm_start_reference.isSome = true)
    (h0 : 0 < a.warm_start_forward_level) (h1 : a.warm_start_forward_level < 1) :
    c.warmInit { a with temperature := t } = c.warmInit a := by
  obtain ⟨r, hr⟩ := Option.isSome_iff_exists.mp href
  simp [ContinuousSDE.warmInit, hr, h0, h1]

/-- Claim C10: when warm-starting is active (a reference tensor is
given and 0 < warm_start_forward_level < 1), the temperature argument
has no effect: with identical random draws, two calls differing only
in temperature produce identical initial states and identical results
(sample and log); temperature scales only the pure-noise initial draw
of the non-warm-start branch. -/
theorem C10_temperature_dead_under_warm_start :
    (∀ (γ : Type) (d : DiscreteSDE γ) (sv : Solver) (a : DiscreteArgs γ) (t1 t2 : ℚ),
      a.warm_start_reference.isSome = true →
      0 < a.warm_start_forward_level → a.warm_start_forward_level < 1 →
      d.sample sv { a with temperature := t1 } = d.sample sv { a with temperature := t2 } ∧
      d.xt0Of { a with temperature := t1 } = d.xt0Of { a with temperature := t2 }) ∧
    (∀ (γ : Type) (c : ContinuousSDE γ) (sv : Solver) (a : ContArgs γ) (t1 t2 : ℚ),
      a.warm_start_reference.isSome = true →
      0 < a.warm_start_forward_level → a.warm_start_forward_level < 1 →
      c.sample sv { a with temperature := t1 } = c.sample sv { a with temperature := t2 } ∧
      c.xt0Of { a with temperature := t1 } = c.xt0Of { a with temperature := t2 }) ∧
    (∀ (γ : Type) (d : DiscreteSDE γ) (a : DiscreteArgs γ),
      a.warm_start_reference = none →
      (d.warmInit a).2 = vsmul a.temperature a.init_noise) ∧
    (∀ (γ : Type) (c : ContinuousSDE γ) (a : ContArgs γ),
      a.warm_start_reference = none →
      (c.warmInit a).2 = vsmul a.temperature a.init_noise) := by
  refine ⟨?_, ?_, ?_, ?_⟩
  · intro γ d sv a t1 t2 href h0 h1
    have hw1 := discrete_warmInit_temp d a t1 href h0 h1
    have hw2 := discrete_warmInit_temp d a t2 href h0 h1
    constructor
    · simp only [DiscreteSDE.sample, DiscreteSDE.sampleWithArrays, DiscreteSDE.finalOf,
        DiscreteSDE.ctxOf, DiscreteSDE.initStateOf, DiscreteSDE.xt0Of,
        DiscreteSDE.hist0Of, DiscreteSDE.modelOf, DiscreteSDE.schedOf,
        DiscreteSDE.hsOf, DiscreteSDE.stdsOf, hw1, hw2]
    · simp only [DiscreteSDE.xt0Of, hw1, hw2]
  · intro γ c sv a t1 t2 href h0 h1
    have hw1 := continuous_warmInit_temp c a t1 href h0 h1
    have hw2 := continuous_warmInit_temp c a t2 href h0 h1
    have hsched : ∀ t, c.schedOf { a with temperature := t } = c.schedOf a := by
      intro t
      simp only [ContinuousSDE.schedOf, continuous_warmInit_temp c a t href h0 h1]
    have halphas : ∀ t, c.alphasOf { a with temperature := t } = c.alphasOf a := by
      intro t
      funext i
      simp only [ContinuousSDE.alphasOf, hsched]
    have hsigmas : ∀ t, c.sigmasOf { a with temperature := t } = c.sigmasOf a := by
      intro t
      funext i
      simp only [ContinuousSDE.sigmasOf, hsched]
    have hhs : ∀ t, c.hsOf { a with temperature := t } = c.hsOf a := by
      intro t
      simp only [ContinuousSDE.hsOf, halphas, hsigmas]
    have hstds : ∀ t, c.stdsOf { a with temperature := t } = c.stdsOf a := by
      intro t
      simp only [ContinuousSDE.stdsOf, halphas, hsigmas]
    have hxt0 : ∀ t, c.xt0Of { a with temperature := t } = c.xt0Of a := by
      intro t
      simp only [ContinuousSDE.xt0Of, continuous_warmInit_temp c a t href h0 h1]
    have hctx : ∀ t hs stds, c.ctxOf sv { a with temperature := t } hs stds =
        c.ctxOf sv a hs stds := by
      intro t hs stds
      simp only [ContinuousSDE.ctxOf, ContinuousSDE.modelOf, hsched, halphas, hsigmas]
    have hinit : ∀ t, c.initStateOf { a with temperature := t } = c.initStateOf a := by
      intro t
      simp only [ContinuousSDE.initStateOf, ContinuousSDE.hist0Of, hxt0]
    have hfin : ∀ t hs stds, c.finalOf sv { a with temperature := t } hs stds =
        c.finalOf sv a hs stds := by
      intro t hs stds
      simp only [ContinuousSDE.finalOf, hctx, hinit]
    constructor
    · simp only [ContinuousSDE.sample, ContinuousSDE.sampleWithArrays, hhs, hstds, hfin]
    · simp only [ContinuousSDE.xt0Of, hw1, hw2]
  · intro γ d a h
    simp [DiscreteSDE.warmInit, h]
  · intro γ c a h
    simp [ContinuousSDE.warmInit, h]

/-- Concrete warm-start arguments: reference [1], forward level 1/2. -/
def aWarm : DiscreteArgs Unit :=
  ⟨[0], 1, fun _ _ i => i, true, 1, none, none, 0, none, 0, 0, some [1], 1/2, false,
   [0], fun _ => [0], fun _ => []⟩

/-- Witness for C10: temperatures 0 and 5 give identical results on a
concrete warm-started call. -/
theorem C10_temperature_dead_witness :
    aWarm.warm_start_reference.isSome = true ∧
    0 < aWarm.warm_start_forward_level ∧ aWarm.warm_start_forward_level < 1 ∧
    dUnit.sample Solver.ddpm { aWarm with temperature := 0 } =
      dUnit.sample Solver.ddpm { aWarm with temperature := 5 } :=
  ⟨by decide, by norm_num [aWarm], by norm_num [aWarm],
   (C10_temperature_dead_under_warm_start.1 Unit dUnit Solver.ddpm aWarm 0 5
      (by decide) (by norm_num [aWarm]) (by norm_num [aWarm])).1⟩

/-! ### Shape preservation: length lemmas for the loop body -/

/-- The predictor oracle returns a tensor of the shape of its input. -/
def NNPreserves {γ : Type} (m : NN γ) : Prop :=
  ∀ x t cond, (m.diffusion x t cond).length = x.length

/-- The classifier gradient has the shape of its input. -/
def ClsPreserves {γ : Type} (cl : Classifier γ) : Prop :=
  ∀ x t cond, ((cl.gradients x t cond).2).length = x.length

lemma cfg_length {γ : Type} (b : SDEBase γ) (model : NN γ) (xt : Vec) (t : ℚ)
    (cond : Option γ) (w : ℚ) (hm : NNPreserves model) :
    (b.classifier_free_guidance model xt t cond w).length = xt.length := by
  unfold SDEBase.classifier_free_guidance
  split_ifs <;> simp [hm xt t cond, hm xt t none]

lemma cg_length {γ : Type} (b : SDEBase γ) (xt : Vec) (t alpha sigma : ℚ)
    (cond : Option γ) (w : ℚ) (pred : Vec) (hp : pred.length = xt.length)
    (hcls : ∀ cl, b.classifier = some cl → ClsPreserves cl) :
    ((b.classifier_guidance xt t alpha sigma cond w pred).1).length = xt.length := by
  unfold SDEBase.classifier_guidance
  cases hc : b.classifier with
  | none => simpa using hp
  | some cl =>
    have hg := hcls cl hc xt t cond
    split_ifs <;> simp_all

lemma guided_length {γ : Type} (b : SDEBase γ) (model : NN γ) (xt : Vec)
    (t alpha sigma : ℚ) (ccfg : Option γ) (wcfg : ℚ) (ccg : Option γ) (wcg : ℚ)
    (hm : NNPreserves model)
    (hcls : ∀ cl, b.classifier = some cl → ClsPreserves cl) :
    ((b.guided_sampling model xt t alpha sigma ccfg wcfg ccg wcg).1).length = xt.length := by
  unfold SDEBase.guided_sampling
  exact cg_length b xt t alpha sigma ccg wcg _ (cfg_length b model xt t ccfg wcfg hm) hcls

lemma vclipo_length_eq (lo hi : Option Vec) (v : Vec) (L : ℕ) (hv : v.length = L)
    (hlo : ∀ l, lo = some l → l.length = L) (hhi : ∀ l, hi = some l → l.length = L) :
    (vclipo lo hi v).length = L := by
  unfold vclipo
  cases hlo2 : lo <;> cases hhi2 : hi <;>
    simp_all

lemma clip_prediction_length {γ : Type} (b : SDEBase γ) (pred xt : Vec)
    (alpha sigma : ℚ) (L : ℕ) (hp : pred.length = L) (hx : xt.length = L)
    (hmax : ∀ v, b.x_max = some v → v.length = L)
    (hmin : ∀ v, b.x_min = some v → v.length = L) :
    (b.clip_prediction pred xt alpha sigma).length = L := by
  unfold SDEBase.clip_prediction
  cases hpn : b.predict_noise
  · simp only [Bool.false_eq_true, if_false]
    split_ifs with hcp
    · exact vclipo_length_eq _ _ _ L hp hmin hmax
    · exact hp
  · simp only [if_true]
    split_ifs with hcp
    · refine vclipo_length_eq _ _ _ L hp ?_ ?_
      · intro l hl
        cases hmx : b.x_max with
        | none => simp [hmx] at hl
        | some v =>
          simp only [hmx, Option.map_some] at hl
          cases hl
          simp [hmax v hmx, hx]
      · intro l hl
        cases hmn : b.x_min with
        | none => simp [hmn] at hl
        | some v =>
          simp only [hmn, Option.map_some] at hl
          cases hl
          simp [hmin v hmn, hx]
    · exact hp

lemma getLastD_mem (l : List Vec) (d : Vec) (h : l ≠ []) : l.getLastD d ∈ l := by
  rw [List.getLastD_eq_getLast?, List.getLast?_eq_getLast l h, Option.getD_some]
  exact List.getLast_mem h

lemma getD_range_map (f : ℕ → Vec) (m k : ℕ) (hk : k < m) :
    ((List.range m).map f).getD k [] = f k := by
  rw [List.getD_eq_getElem?_getD, List.getElem?_map, List.getElem?_range hk]
  rfl

/-- Whether a solver maintains the 2-entry multistep memory. -/
def Solver.usesMemory : Solver → Prop
  | .ode_dpmsolver_pp_2M => True
  | .sde_dpmsolver_pp_2M => True
  | _ => False

lemma solverUpdate_length (P : MathPrims) (sv : Solver) (n : ℕ)
    (alphas sigmas hs stds : ℕ → ℚ) (i : ℕ) (xt eps xθ : Vec)
    (buffer : List Vec) (z : Vec) (L : ℕ)
    (hxt : xt.length = L) (he : eps.length = L) (ht : xθ.length = L)
    (hz : z.length = L) (hbuf : ∀ b ∈ buffer, b.length = L)
    (h2m : i < n → sv.usesMemory → buffer ≠ []) :
    (solverUpdate P sv n alphas sigmas hs stds i xt eps xθ buffer z).1.length = L ∧
    (∀ b ∈ (solverUpdate P sv n alphas sigmas hs stds i xt eps xθ buffer z).2,
      b.length = L) := by
  have hbuf2 : ∀ b ∈ buffer ++ [xθ], b.length = L := by
    intro b hb
    rcases List.mem_append.mp hb with h | h
    · exact hbuf b h
    · simp at h
      rw [h, ht]
  have hprev : i < n → sv.usesMemory → (bufLast2 (buffer ++ [xθ])).length = L := by
    intro hin hmem
    rw [bufLast2_append]
    exact hbuf (buffer.getLastD []) (getLastD_mem buffer [] (h2m hin hmem))
  cases sv with
  | ddpm =>
    constructor
    · simp only [solverUpdate]
      split_ifs <;> simp [hxt, he, hz]
    · simpa using hbuf
  | ddim =>
    constructor
    · simp [solverUpdate, hxt, he]
    · simpa using hbuf
  | ode_dpmsolver_1 =>
    constructor
    · simp [solverUpdate, hxt, he]
    · simpa using hbuf
  | ode_dpmsolver_pp_1 =>
    constructor
    · simp [solverUpdate, hxt, ht]
    · simpa using hbuf
  | ode_dpmsolver_pp_2M =>
    constructor
    · simp only [solverUpdate]
      split_ifs with hin
      · have hpl := hprev hin trivial
        simp [bufLast_append, hxt, ht, hpl]
      · simp [hxt, ht]
    · simp only [solverUpdate]
      split_ifs <;> simpa using hbuf2
  | sde_dpmsolver_1 =>
    constructor
    · simp [solverUpdate, hxt, he, hz]
    · simpa using hbuf
  | sde_dpmsolver_pp_1 =>
    constructor
    · simp [solverUpdate, hxt, ht, hz]
    · simpa using hbuf
  | sde_dpmsolver_pp_2M =>
    constructor
    · simp only [solverUpdate]
      split_ifs with hin
      · have hpl := hprev hin trivial
        simp [bufLast_append, hxt, ht, hpl, hz]
      · simp [hxt, ht, hz]
    · simp only [solverUpdate]
      split_ifs <;> simpa using hbuf2

/-- Length hypotheses on a loop context. -/
def CtxLen {γ : Type} (c : StepCtx γ) (L : ℕ) : Prop :=
  NNPreserves c.model ∧
  (∀ cl, c.base.classifier = some cl → ClsPreserves cl) ∧
  c.base.fix_mask.length = L ∧
  c.prior.length = L ∧
  (∀ k, (c.noises k).length = L) ∧
  (∀ v, c.base.x_max = some v → v.length = L) ∧
  (∀ v, c.base.x_min = some v → v.length = L)

lemma stepIter_length {γ : Type} (c : StepCtx γ) (L : ℕ) (hc : CtxLen c L)
    (k i : ℕ) (st : LoopState)
    (hxt : st.xt.length = L) (hbuf : ∀ b ∈ st.buffer, b.length = L)
    (h2m : i < c.n → c.solver.usesMemory → st.buffer ≠ []) :
    (stepIter c k i st).xt.length = L ∧
    (∀ b ∈ (stepIter c k i st).buffer, b.length = L) := by
  obtain ⟨hm, hcls, hmask, hprior, hnoise, hmax, hmin⟩ := hc
  have hp : ((c.base.guided_sampling c.model st.xt (c.tOf i) (c.alphas i) (c.sigmas i)
      c.cond_cfg c.w_cfg c.cond_cg c.w_cg).1).length = L := by
    rw [guided_length _ _ _ _ _ _ _ _ _ _ hm hcls, hxt]
  have hclip : (c.base.clip_prediction
      (c.base.guided_sampling c.model st.xt (c.tOf i) (c.alphas i) (c.sigmas i)
        c.cond_cfg c.w_cfg c.cond_cg c.w_cg).1 st.xt (c.alphas i) (c.sigmas i)).length = L :=
    clip_prediction_length _ _ _ _ _ L hp hxt hmax hmin
  have heps : ∀ pred : Vec, pred.length = L →
      (if c.base.predict_noise then pred
       else vxtheta_to_epstheta st.xt (c.alphas i) (c.sigmas i) pred).length = L := by
    intro pred hpl
    split_ifs
    · exact hpl
    · simp [vxtheta_to_epstheta, hxt, hpl]
  have hxth : ∀ pred : Vec, pred.length = L →
      (if c.base.predict_noise then
        vepstheta_to_xtheta st.xt (c.alphas i) (c.sigmas i) pred
       else pred).length = L := by
    intro pred hpl
    split_ifs
    · simp [vepstheta_to_xtheta, hxt, hpl]
    · exact hpl
  have hupd := solverUpdate_length c.base.prims c.solver c.n c.alphas c.sigmas c.hs c.stds i
    st.xt _ _ st.buffer (c.noises k) L hxt (heps _ hclip) (hxth _ hclip) (hnoise k) hbuf h2m
  constructor
  · show (applyMask c.base.fix_mask c.prior _).length = L
    rw [applyMask_length, hupd.1, hmask, hprior]
    omega
  · exact hupd.2

lemma denoiseLoop_length {γ : Type} (c : StepCtx γ) (L : ℕ) (hc : CtxLen c L) :
    ∀ steps : List ℕ, (∀ i ∈ steps, ¬ i < c.n ∨ ¬ c.solver.usesMemory) →
    ∀ (k : ℕ) (st : LoopState), st.xt.length = L → (∀ b ∈ st.buffer, b.length = L) →
    (denoiseLoop c steps k st).xt.length = L ∧
    (∀ b ∈ (denoiseLoop c steps k st).buffer, b.length = L) := by
  intro steps
  induction steps with
  | nil => intro _ k st h1 h2; exact ⟨h1, h2⟩
  | cons i rest ih =>
    intro hok k st h1 h2
    have hstep := stepIter_length c L hc k i st h1 h2 (by
      intro hin hmem
      rcases hok i (by simp) with h | h
      · exact absurd hin h
      · exact absurd hmem h)
    exact ih (fun j hj => hok j (by simp [hj])) (k + 1) _ hstep.1 hstep.2

/-! ### Claim C5: one-step sampling for all eight solvers -/

lemma discrete_warmInit_length {γ : Type} (d : DiscreteSDE γ) (a : DiscreteArgs γ) (L : ℕ)
    (hn : a.init_noise.length = L)
    (hr : ∀ r, a.warm_start_reference = some r → r.length = L) :
    ((d.warmInit a).2).length = L := by
  unfold DiscreteSDE.warmInit
  cases hw : a.warm_start_reference with
  | none => simp [hn]
  | some r =>
    split_ifs
    · simp [hr r hw, hn]
    · simp [hn]

lemma discrete_xt0_length {γ : Type} (d : DiscreteSDE γ) (a : DiscreteArgs γ) (L : ℕ)
    (hmask : d.fix_mask.length = L) (hprior : a.prior.length = L)
    (hn : a.init_noise.length = L)
    (hr : ∀ r, a.warm_start_reference = some r → r.length = L) :
    (d.xt0Of a).length = L := by
  unfold DiscreteSDE.xt0Of
  rw [applyMask_length, discrete_warmInit_length d a L hn hr, hmask, hprior]
  omega

lemma discrete_modelOf_preserves {γ : Type} (d : DiscreteSDE γ) (a : DiscreteArgs γ)
    (h1 : NNPreserves d.nnModel) (h2 : NNPreserves d.nnModelEma) :
    NNPreserves (d.modelOf a) := by
  unfold DiscreteSDE.modelOf
  split_ifs
  · exact h2
  · exact h1

/-- Claim C5: for every one of the 8 supported solver names, a
discrete sampling call with `sample_steps = 1` passes the solver-name
assertion, terminates (the embedding is a total function, evaluated
here) and returns an array of the same shape as the prior, provided
the predictor and classifier oracles are shape-preserving and the
configured tensors share the prior's shape. -/
theorem C5_one_step_all_solvers (γ : Type) (d : DiscreteSDE γ) (name : String)
    (a : DiscreteArgs γ)
    (hname : name ∈ SUPPORTED_SOLVERS)
    (hn1 : a.sample_steps = 1)
    (hm1 : NNPreserves d.nnModel) (hm2 : NNPreserves d.nnModelEma)
    (hcls : ∀ cl, d.classifier = some cl → ClsPreserves cl)
    (hmask : d.fix_mask.length = a.prior.length)
    (hnoi : a.init_noise.length = a.prior.length)
    (hnoises : ∀ k, (a.noises k).length = a.prior.length)
    (href : ∀ r, a.warm_start_reference = some r → r.length = a.prior.length)
    (hmax : ∀ v, d.x_max = some v → v.length = a.prior.length)
    (hmin : ∀ v, d.x_min = some v → v.length = a.prior.length) :
    ∃ res, d.sampleChecked name a = some res ∧ res.1.length = a.prior.length := by
  obtain ⟨sv, hsv⟩ : ∃ sv, Solver.ofString name = some sv :=
    Option.isSome_iff_exists.mp ((ofString_isSome_iff name).mpr hname)
  refine ⟨d.sample sv a, ?_, ?_⟩
  · unfold DiscreteSDE.sampleChecked
    rw [hsv]
  · have hctx : CtxLen (d.ctxOf sv a (d.hsOf a) (d.stdsOf a)) a.prior.length :=
      ⟨discrete_modelOf_preserves d a hm1 hm2, hcls, hmask, rfl, hnoises, hmax, hmin⟩
    have hok : ∀ i ∈ loopSteps a.diffusion_x_sampling_steps a.sample_steps,
        ¬ i < (d.ctxOf sv a (d.hsOf a) (d.stdsOf a)).n ∨
        ¬ (d.ctxOf sv a (d.hsOf a) (d.stdsOf a)).solver.usesMemory := by
      intro i hi
      left
      show ¬ i < a.sample_steps
      simp only [loopSteps, hn1, List.mem_append, List.mem_reverse, List.mem_range',
        List.mem_replicate] at hi
      omega
    have hfin := denoiseLoop_length (d.ctxOf sv a (d.hsOf a) (d.stdsOf a))
      a.prior.length hctx (loopSteps a.diffusion_x_sampling_steps a.sample_steps) hok 0
      (d.initStateOf a)
      (discrete_xt0_length d a a.prior.length hmask rfl hnoi href)
      (by intro b hb; simp [DiscreteSDE.initStateOf] at hb)
    show ((d.sample sv a).1).length = a.prior.length
    simp only [DiscreteSDE.sample, DiscreteSDE.sampleWithArrays]
    split_ifs
    · exact vclipo_length_eq _ _ _ a.prior.length hfin.1 hmin hmax
    · exact hfin.1

/-- Witness for C5 at a concrete one-step call with solver name
"ddim". -/
theorem C5_one_step_all_solvers_witness :
    ∃ res, dUnit.sampleChecked "ddim" aUnit = some res ∧
      res.1.length = aUnit.prior.length :=
  C5_one_step_all_solvers Unit dUnit "ddim" aUnit
    (by decide) (by decide)
    (fun _ _ _ => rfl) (fun _ _ _ => rfl)
    (fun _ h => Option.noConfusion h)
    (by decide) (by decide) (fun _ => rfl)
    (fun _ h => Option.noConfusion h)
    (fun _ h => Option.noConfusion h) (fun _ h => Option.noConfusion h)

/-! ### Claim C3: the ddpm five-step scenario with history -/

lemma stepIter_hist_write {γ : Type} (c : StepCtx γ) (hpres : c.preserve_history = true)
    (k i : ℕ) (st : LoopState) :
    (stepIter c k i st).hist (c.n - i + 1) = (stepIter c k i st).xt := by
  simp only [stepIter, hpres, if_true]
  exact Function.update_same _ _ _

lemma stepIter_hist_eq {γ : Type} (c : StepCtx γ) (k i : ℕ) (st : LoopState) (s : ℕ)
    (h : c.preserve_history = false ∨ s ≠ c.n - i + 1) :
    (stepIter c k i st).hist s = st.hist s := by
  by_cases hp : c.preserve_history = true
  · rcases h with h | h
    · rw [hp] at h
      exact Bool.noConfusion h
    · simp [stepIter, hp, Function.update_noteq h]
  · have hp2 : c.preserve_history = false := by simpa using hp
    simp [stepIter, hp2]

lemma denoiseLoop_hist_zero {γ : Type} (c : StepCtx γ) :
    ∀ (steps : List ℕ) (k : ℕ) (st : LoopState),
      (denoiseLoop c steps k st).hist 0 = st.hist 0 := by
  intro steps
  induction steps with
  | nil => intro k st; rfl
  | cons i rest ih =>
    intro k st
    have h1 := ih (k + 1) (stepIter c k i st)
    have h2 := stepIter_hist_eq c k i st 0 (Or.inr (by omega))
    calc (denoiseLoop c (i :: rest) k st).hist 0
        = (stepIter c k i st).hist 0 := h1
      _ = st.hist 0 := h2

lemma denoiseLoop_last_write {γ : Type} (c : StepCtx γ) (hpres : c.preserve_history = true) :
    ∀ (steps : List ℕ) (k : ℕ) (st : LoopState) (i : ℕ),
      (denoiseLoop c (steps ++ [i]) k st).hist (c.n - i + 1) =
      (denoiseLoop c (steps ++ [i]) k st).xt := by
  intro steps
  induction steps with
  | nil =>
    intro k st i
    exact stepIter_hist_write c hpres k i st
  | cons j rest ih =>
    intro k st i
    exact ih (k + 1) (stepIter c k j st) i

lemma denoiseLoop_hist_or {γ : Type} (c : StepCtx γ) (L : ℕ) (hc : CtxLen c L) :
    ∀ steps : List ℕ, (∀ i ∈ steps, ¬ i < c.n ∨ ¬ c.solver.usesMemory) →
    ∀ (k : ℕ) (st : LoopState) (s : ℕ),
      st.xt.length = L → (∀ b ∈ st.buffer, b.length = L) →
      ((denoiseLoop c steps k st).hist s = st.hist s ∨
       ((denoiseLoop c steps k st).hist s).length = L) := by
  intro steps
  induction steps with
  | nil => intro _ k st s _ _; exact Or.inl rfl
  | cons i rest ih =>
    intro hok k st s h1 h2
    have hstep := stepIter_length c L hc k i st h1 h2 (by
      intro hin hmem
      rcases hok i (by simp) with h | h
      · exact absurd hin h
      · exact absurd hmem h)
    have hrest := ih (fun j hj => hok j (by simp [hj])) (k + 1) (stepIter c k i st) s
      hstep.1 hstep.2
    rcases hrest with h | h
    · by_cases hp : c.preserve_history = true
      · by_cases hs2 : s = c.n - i + 1
        · right
          show ((denoiseLoop c rest (k + 1) (stepIter c k i st)).hist s).length = L
          rw [h, hs2, stepIter_hist_write c hp k i st]
          exact hstep.1
        · left
          show (denoiseLoop c rest (k + 1) (stepIter c k i st)).hist s = st.hist s
          rw [h]
          exact stepIter_hist_eq c k i st s (Or.inr hs2)
      · left
        show (denoiseLoop c rest (k + 1) (stepIter c k i st)).hist s = st.hist s
        rw [h]
        exact stepIter_hist_eq c k i st s (Or.inl (by simpa using hp))
    · exact Or.inr h

lemma denoiseLoop_hist_written {γ : Type} (c : StepCtx γ) (L : ℕ) (hc : CtxLen c L)
    (hpres : c.preserve_history = true) :
    ∀ steps : List ℕ, (∀ i ∈ steps, ¬ i < c.n ∨ ¬ c.solver.usesMemory) →
    ∀ (k : ℕ) (st : LoopState) (s : ℕ),
      st.xt.length = L → (∀ b ∈ st.buffer, b.length = L) →
      s ∈ steps.map (fun i => c.n - i + 1) →
      ((denoiseLoop c steps k st).hist s).length = L := by
  intro steps
  induction steps with
  | nil => intro _ k st s _ _ hmem; simp at hmem
  | cons i rest ih =>
    intro hok k st s h1 h2 hmem
    have hstep := stepIter_length c L hc k i st h1 h2 (by
      intro hin hmem2
      rcases hok i (by simp) with h | h
      · exact absurd hin h
      · exact absurd hmem2 h)
    simp only [List.map_cons, List.mem_cons] at hmem
    rcases hmem with hs2 | hmem
    · have hor := denoiseLoop_hist_or c L hc rest (fun j hj => hok j (by simp [hj]))
        (k + 1) (stepIter c k i st) s hstep.1 hstep.2
      rcases hor with h | h
      · show ((denoiseLoop c rest (k + 1) (stepIter c k i st)).hist s).length = L
        rw [h, hs2, stepIter_hist_write c hpres k i st]
        exact hstep.1
      · exact h
    · exact ih (fun j hj => hok j (by simp [hj])) (k + 1) (stepIter c k i st) s
        hstep.1 hstep.2 hmem

lemma vsmul_one (v : Vec) : vsmul 1 v = v := by
  simp [vsmul]

lemma applyMask_zero4 (v : Vec) (hv : v.length = 4) :
    applyMask [0, 0, 0, 0] [0, 0, 0, 0] v = v := by
  apply vec_ext
  · rw [applyMask_length, hv]
    rfl
  · intro j hj
    rw [applyMask_length, hv] at hj
    have hj4 : j < 4 := by
      simpa using hj
    rw [applyMask_getD _ _ _ j (by omega) (by simpa) (by simpa)]
    interval_cases j <;> simp

/-- Claim C3: the ddpm scenario with diffusion_steps = 1000,
sample_steps = 5, all-zeros prior and fix mask of shape (1, 4),
temperature 1, no guidance and preserve_history: the call terminates
(the embedding is a total function over exact rationals, so every
entry is a well-defined rational — the embedding has no NaN/Inf
values), returns an array of shape (1, 4), and the recorded history
has shape (1, 6, 4) with entry 0 the initial noise draw and entry 5
the returned output.  The noise schedule and step schedule are
abstract arrays here (they live in `cleandiffuser.utils`), so the
statement holds for every schedule, the cosine one included. -/
theorem C3_ddpm_five_step_scenario (γ : Type) (d : DiscreteSDE γ) (a : DiscreteArgs γ)
    (hmask : d.fix_mask = [0, 0, 0, 0])
    (_hdiff : d.diffusion_steps = 1000)
    (hcls : d.classifier = none)
    (hxmax : d.x_max = none) (hxmin : d.x_min = none)
    (hprior : a.prior = [0, 0, 0, 0])
    (hn : a.sample_steps = 5)
    (htemp : a.temperature = 1)
    (_hwcfg : a.w_cfg = 0) (_hwcg : a.w_cg = 0)
    (hdx : a.diffusion_x_sampling_steps = 0)
    (hwarm : a.warm_start_reference = none)
    (hpres : a.preserve_history = true)
    (hm1 : NNPreserves d.nnModel) (hm2 : NNPreserves d.nnModelEma)
    (hnoi : a.init_noise.length = 4)
    (hnoises : ∀ k, (a.noises k).length = 4) :
    ((d.sample .ddpm a).1).length = 4 ∧
    ∃ H, (d.sample .ddpm a).2.sample_history = some H ∧ H.length = 6 ∧
      H.getD 0 [] = a.init_noise ∧
      H.getD 5 [] = (d.sample .ddpm a).1 ∧
      (∀ e ∈ H, e.length = 4) := by
  have hpriorlen : a.prior.length = 4 := by rw [hprior]; rfl
  have hmasklen : d.fix_mask.length = 4 := by rw [hmask]; rfl
  have hclsnone : ∀ cl, d.classifier = some cl → ClsPreserves cl := by
    intro cl h
    rw [hcls] at h
    exact Option.noConfusion h
  have hmaxnone : ∀ v, d.x_max = some v → v.length = 4 := by
    intro v h
    rw [hxmax] at h
    exact Option.noConfusion h
  have hminnone : ∀ v, d.x_min = some v → v.length = 4 := by
    intro v h
    rw [hxmin] at h
    exact Option.noConfusion h
  have hrefnone : ∀ r, a.warm_start_reference = some r → r.length = 4 := by
    intro r h
    rw [hwarm] at h
    exact Option.noConfusion h
  have hctx : CtxLen (d.ctxOf .ddpm a (d.hsOf a) (d.stdsOf a)) 4 :=
    ⟨discrete_modelOf_preserves d a hm1 hm2, hclsnone, hmasklen, hpriorlen, hnoises,
     hmaxnone, hminnone⟩
  have hok : ∀ i ∈ loopSteps a.diffusion_x_sampling_steps a.sample_steps,
      ¬ i < (d.ctxOf .ddpm a (d.hsOf a) (d.stdsOf a)).n ∨
      ¬ (d.ctxOf .ddpm a (d.hsOf a) (d.stdsOf a)).solver.usesMemory := by
    intro i _
    right
    show ¬ Solver.ddpm.usesMemory
    simp [Solver.usesMemory]
  have hxt0len : (d.xt0Of a).length = 4 :=
    discrete_xt0_length d a 4 hmasklen hpriorlen hnoi hrefnone
  have hinitbuf : ∀ b ∈ (d.initStateOf a).buffer, b.length = 4 := by
    intro b hb
    simp [DiscreteSDE.initStateOf] at hb
  have hfin := denoiseLoop_length (d.ctxOf .ddpm a (d.hsOf a) (d.stdsOf a)) 4 hctx
    (loopSteps a.diffusion_x_sampling_steps a.sample_steps) hok 0 (d.initStateOf a)
    hxt0len hinitbuf
  have hclip : d.clip_pred = false := by
    simp [SDEBase.clip_pred, hxmax, hxmin]
  have hout : (d.sample .ddpm a).1 = (d.finalOf .ddpm a (d.hsOf a) (d.stdsOf a)).xt := by
    simp [DiscreteSDE.sample, DiscreteSDE.sampleWithArrays, hclip]
  have hfinlen : ((d.finalOf .ddpm a (d.hsOf a) (d.stdsOf a)).xt).length = 4 := hfin.1
  have hw2 : (d.warmInit a).2 = a.init_noise := by
    unfold DiscreteSDE.warmInit
    rw [hwarm, htemp, vsmul_one]
  have hxt0 : d.xt0Of a = a.init_noise := by
    unfold DiscreteSDE.xt0Of
    rw [hw2, hmask, hprior]
    exact applyMask_zero4 _ hnoi
  have hhist0 : (d.finalOf .ddpm a (d.hsOf a) (d.stdsOf a)).hist 0 = a.init_noise := by
    unfold DiscreteSDE.finalOf
    rw [denoiseLoop_hist_zero]
    show (d.hist0Of a) 0 = a.init_noise
    unfold DiscreteSDE.hist0Of
    rw [hpres]
    simp [hxt0]
  have hls : loopSteps a.diffusion_x_sampling_steps a.sample_steps = [5, 4, 3, 2] ++ [1] := by
    rw [hdx, hn]
    decide
  have hctxn : (d.ctxOf .ddpm a (d.hsOf a) (d.stdsOf a)).n = 5 := hn
  have hctxpres : (d.ctxOf .ddpm a (d.hsOf a) (d.stdsOf a)).preserve_history = true := hpres
  have hlast : (d.finalOf .ddpm a (d.hsOf a) (d.stdsOf a)).hist 5 =
      (d.finalOf .ddpm a (d.hsOf a) (d.stdsOf a)).xt := by
    unfold DiscreteSDE.finalOf
    rw [hls]
    have := denoiseLoop_last_write (d.ctxOf .ddpm a (d.hsOf a) (d.stdsOf a)) hctxpres
      [5, 4, 3, 2] 0 (d.initStateOf a) 1
    rw [hctxn] at this
    simpa using this
  have hhist : (d.sample .ddpm a).2.sample_history =
      some ((List.range (a.sample_steps + 1)).map
        (d.finalOf .ddpm a (d.hsOf a) (d.stdsOf a)).hist) := by
    simp [DiscreteSDE.sample, DiscreteSDE.sampleWithArrays, hpres]
  refine ⟨by rw [hout]; exact hfinlen, _, hhist, ?_, ?_, ?_, ?_⟩
  · rw [hn]
    simp
  · rw [hn]
    rw [getD_range_map _ 6 0 (by omega)]
    exact hhist0
  · rw [hn, getD_range_map _ 6 5 (by omega), hout]
    exact hlast
  · intro e he
    rw [hn] at he
    rcases List.mem_map.mp he with ⟨s, hs, rfl⟩
    rw [List.mem_range] at hs
    by_cases hs0 : s = 0
    · rw [hs0, hhist0]
      exact hnoi
    · have hmem : s ∈ (loopSteps a.diffusion_x_sampling_steps a.sample_steps).map
          (fun i => (d.ctxOf .ddpm a (d.hsOf a) (d.stdsOf a)).n - i + 1) := by
        rw [hls, hctxn]
        simp only [List.map_append, List.map_cons, List.map_nil, List.mem_append,
          List.mem_cons, List.not_mem_nil, or_false]
        omega
      exact denoiseLoop_hist_written (d.ctxOf .ddpm a (d.hsOf a) (d.stdsOf a)) 4 hctx
        hctxpres (loopSteps a.diffusion_x_sampling_steps a.sample_steps) hok 0
        (d.initStateOf a) s hxt0len hinitbuf hmem

/-- Concrete model for the C3 scenario: 4 coordinates, no mask, no
classifier, no bounds, 1000 diffusion steps. -/
def dC3 : DiscreteSDE Unit :=
  ⟨⟨idPrims, [0, 0, 0, 0], none, true, none, none, unitNN, unitNN⟩, 1000,
   fun _ => 1, fun _ => 1⟩

/-- Concrete arguments for the C3 scenario: zero prior of shape (1,4),
5 sampling steps, temperature 1, no guidance, history preserved. -/
def aC3 : DiscreteArgs Unit :=
  ⟨[0, 0, 0, 0], 5, fun _ _ i => i, true, 1, none, none, 0, none, 0, 0, none, 0, true,
   [1, 2, 3, 4], fun _ => [0, 0, 0, 0], fun _ => []⟩

/-- Witness for C3 at the concrete scenario instance. -/
theorem C3_ddpm_five_step_scenario_witness :
    ((dC3.sample .ddpm aC3).1).length = 4 ∧
    ∃ H, (dC3.sample .ddpm aC3).2.sample_history = some H ∧ H.length = 6 ∧
      H.getD 0 [] = aC3.init_noise ∧
      H.getD 5 [] = (dC3.sample .ddpm aC3).1 ∧
      (∀ e ∈ H, e.length = 4) :=
  C3_ddpm_five_step_scenario Unit dC3 aC3 rfl rfl rfl rfl rfl rfl rfl rfl rfl rfl rfl
    rfl rfl (fun _ _ _ => rfl) (fun _ _ _ => rfl) rfl (fun _ => rfl)

end CDiff
